import Mathlib

/-!
Verification of the minimum-cost perfect-matching engine (`Matching` class,
Edmonds' blossom algorithm with primal-dual updates) of the
LineCoverage-library.  The C++ source is shallowly embedded: machine
doubles become exact rationals, the per-instance arrays become lists, the
`while` loops and recursive member functions become fuel-indexed Lean
functions returning `Option`.
-/

/-- Exact rational numbers represented as an unreduced fraction
`num / (den1 + 1)`.  The denominator is positive by construction, every
operation is implemented by cross multiplication on `ℤ`/`ℕ` so that the
kernel can evaluate concrete runs of the embedded program.  This is the
model of the C++ `double` values used by the matching engine. -/
structure Q where
  num : ℤ
  den1 : ℕ
deriving DecidableEq, Repr

/-- The (positive) denominator of a `Q`. -/
def Q.den (q : Q) : ℕ := q.den1 + 1

/-- Embedding of an integer. -/
def Q.ofInt (n : ℤ) : Q := ⟨n, 0⟩

/-- Addition, by cross multiplication. -/
def Q.add (a b : Q) : Q :=
  ⟨a.num * (b.den : ℤ) + b.num * (a.den : ℤ), a.den1 * b.den1 + a.den1 + b.den1⟩

/-- Subtraction, by cross multiplication. -/
def Q.sub (a b : Q) : Q :=
  ⟨a.num * (b.den : ℤ) - b.num * (a.den : ℤ), a.den1 * b.den1 + a.den1 + b.den1⟩

/-- Halving (used for the dual step `e2 / 2.0`). -/
def Q.half (a : Q) : Q := ⟨a.num, 2 * a.den1 + 1⟩

/-- Doubling (used for the slack update `2.0 * e`). -/
def Q.double (a : Q) : Q := ⟨2 * a.num, a.den1⟩

/-- Strict comparison, by cross multiplication. -/
def Q.blt (a b : Q) : Bool := decide (a.num * (b.den : ℤ) < b.num * (a.den : ℤ))

/-- Value equality (the represented rationals are equal). -/
def Q.qeq (a b : Q) : Bool := decide (a.num * (b.den : ℤ) = b.num * (a.den : ℤ))

/-- The rational value represented by a `Q`. -/
def Q.val (q : Q) : ℚ := (q.num : ℚ) / (q.den : ℚ)

/-- Modelled from the spec: the numerical tolerance `ε` of the engine
(`GREATER(A, B) ≡ (A) − (B) > ε`, "with `ε` a small positive tolerance
(e.g. `1e-10`)"); the macro itself lives in a header that is not part of
the sources. -/
def EPSILON : Q := ⟨1, 9999999999⟩

/-- Modelled from the spec: the comparison predicate through which every
floating-point comparison of the engine goes. -/
def GREATER (a b : Q) : Bool := Q.blt EPSILON (Q.sub a b)

/-! List access helpers.  Out-of-range accesses in the C++ source are
undefined behaviour; the embedding returns a fixed default instead. -/

/-- Element `i` of a list, or the default `d` when out of range. -/
def nth (d : α) : List α → ℕ → α
  | [], _ => d
  | h :: _, 0 => h
  | _ :: t, i + 1 => nth d t i

/-- Writing element `i` of a list (a no-op when out of range). -/
def upd : List α → ℕ → α → List α
  | [], _, _ => []
  | _ :: t, 0, a => a :: t
  | h :: t, i + 1, a => h :: upd t i a

/-- A loop `for i in [0, k): l[i] := f i l[i]` whose iterations touch
pairwise distinct positions. -/
def iterUpd (d : α) (f : ℕ → α → α) (l : List α) : ℕ → List α
  | 0 => l
  | k + 1 => upd (iterUpd d f l k) k (f k (nth d (iterUpd d f l k) k))

/-! The graph seen by the matching engine. -/

/-- Modelled from the spec: the immutable matching graph (`mcpm::Graph`,
whose header is not part of the sources): `n` vertices and an
edge list indexed by position, with index lookup, adjacency matrix and
adjacency list derived from it ("for every index `e`, `edge(e) = (u,v)`
implies `adjList(u)` contains `v` and `adjMatrix[u][v] = true`"). -/
structure Graph where
  n : ℕ
  edges : List (ℕ × ℕ)
deriving DecidableEq, Repr

/-- Embedding of `GetNumVertices`. -/
def Graph.GetNumVertices (G : Graph) : ℕ := G.n

/-- Embedding of `GetNumEdges`. -/
def Graph.GetNumEdges (G : Graph) : ℕ := G.edges.length

/-- Embedding of `GetEdge`: the endpoints of the edge with index `i`. -/
def Graph.GetEdge (G : Graph) (i : ℕ) : ℕ × ℕ := nth (0, 0) G.edges i

/-- Whether a listed edge joins `u` and `v` (in either orientation). -/
def edgeIs (u v : ℕ) (p : ℕ × ℕ) : Bool :=
  (p.1 == u && p.2 == v) || (p.1 == v && p.2 == u)

/-- Embedding of `GetEdgeIndex`: the index of the edge joining `u` and `v`; the
sentinel `m` when they are not adjacent. -/
def Graph.GetEdgeIndex (G : Graph) (u v : ℕ) : ℕ :=
  G.edges.findIdx (edgeIs u v)

/-- Embedding of `AdjMat()[u][v]`. -/
def Graph.AdjMat (G : Graph) (u v : ℕ) : Bool := G.edges.any (edgeIs u v)

/-- Embedding of `AdjList(u)`, in edge-index order. -/
def Graph.AdjList (G : Graph) (u : ℕ) : List ℕ :=
  G.edges.filterMap (fun p =>
    if p.1 == u then some p.2 else if p.2 == u then some p.1 else none)

/-! The matching engine state: the per-instance arrays of the C++
`Matching` class, all sized over the augmented vertex set `[0, 2n)`. -/

structure MState where
  n : ℕ
  m : ℕ
  outer : List ℕ
  deep : List (List ℕ)
  shallow : List (List ℕ)
  tip : List ℕ
  active : List Bool
  type : List ℕ
  forest : List ℤ
  root : List ℕ
  blocked : List Bool
  dual : List Q
  slack : List Q
  mate : List ℤ
  free : List ℕ
  forestList : List ℕ
  visited : List Bool
  perfect : Bool
deriving Repr

/-- The `EVEN` label. -/
def EVEN : ℕ := 2
/-- The `ODD` label. -/
def ODD : ℕ := 1
/-- The `UNLABELED` label. -/
def UNLABELED : ℕ := 0

def outerOf (s : MState) (i : ℕ) : ℕ := nth 0 s.outer i
def mateOf (s : MState) (i : ℕ) : ℤ := nth (-1) s.mate i
def deepOf (s : MState) (i : ℕ) : List ℕ := nth [] s.deep i
def shallowOf (s : MState) (i : ℕ) : List ℕ := nth [] s.shallow i
def tipOf (s : MState) (i : ℕ) : ℕ := nth 0 s.tip i
def activeOf (s : MState) (i : ℕ) : Bool := nth false s.active i
def typeOf (s : MState) (i : ℕ) : ℕ := nth 0 s.type i
def forestOf (s : MState) (i : ℕ) : ℤ := nth (-1) s.forest i
def rootOf (s : MState) (i : ℕ) : ℕ := nth 0 s.root i
def blockedOf (s : MState) (i : ℕ) : Bool := nth false s.blocked i
def dualOf (s : MState) (i : ℕ) : Q := nth (Q.ofInt 0) s.dual i
def slackOf (s : MState) (e : ℕ) : Q := nth (Q.ofInt 0) s.slack e
def visitedOf (s : MState) (i : ℕ) : Bool := nth false s.visited i

/-- Embedding of `Clear()`: resets every array of the engine (together with
`ClearBlossomIndices()`, which refills `free` with `n .. 2n−1`). -/
def Clear (G : Graph) : MState :=
  let n := G.n
  { n := n
    m := G.edges.length
    outer := List.range (2 * n)
    deep := (List.range (2 * n)).map (fun i => if i < n then [i] else [])
    shallow := (List.range (2 * n)).map (fun _ => [])
    tip := List.range (2 * n)
    active := (List.range (2 * n)).map (fun i => decide (i < n))
    type := List.replicate (2 * n) 0
    forest := List.replicate (2 * n) (-1)
    root := List.range (2 * n)
    blocked := List.replicate (2 * n) false
    dual := List.replicate (2 * n) (Q.ofInt 0)
    slack := List.replicate G.edges.length (Q.ofInt 0)
    mate := List.replicate (2 * n) (-1)
    free := (List.range n).map (fun i => n + i)
    forestList := []
    visited := List.replicate (2 * n) false
    perfect := false }

/-- Embedding of `IsEdgeBlocked(e)`: `GREATER(slack[e], 0)`. -/
def IsEdgeBlockedE (s : MState) (e : ℕ) : Bool := GREATER (slackOf s e) (Q.ofInt 0)

/-- Embedding of `IsEdgeBlocked(u, v)`. -/
def IsEdgeBlockedUV (G : Graph) (s : MState) (u v : ℕ) : Bool :=
  IsEdgeBlockedE s (G.GetEdgeIndex u v)

/-- Embedding of `IsAdjacent(u, v)`: adjacent in `G` and the connecting edge is not
blocked. -/
def IsAdjacent (G : Graph) (s : MState) (u v : ℕ) : Bool :=
  G.AdjMat u v && !(IsEdgeBlockedUV G s u v)

/-- Embedding of `PositiveCosts()`, first loop: the running minimum `minEdge`,
starting from `0`, lowered to `slack[i]` whenever
`GREATER(minEdge − slack[i], 0)`. -/
def minSlackFold (s : MState) : Q :=
  (List.range s.m).foldl
    (fun mn i => if GREATER (Q.sub mn (slackOf s i)) (Q.ofInt 0) then slackOf s i else mn)
    (Q.ofInt 0)

/-- Embedding of `PositiveCosts()`: subtract `minEdge` from every slack. -/
def PositiveCosts (s : MState) : MState :=
  let minEdge := minSlackFold s
  { s with slack := iterUpd (Q.ofInt 0) (fun _ sl => Q.sub sl minEdge) s.slack s.m }

/-- The inner search loop of `Expand`: scan `deep[v]` for a partner of
`di`, keeping the regular unblocked edge of minimum index seen so far.
The accumulator is `(p, q, index)`, initialised to `(−1, −1, m)`. -/
def findMinEdgeInner (G : Graph) (s : MState) (di : ℕ) :
    List ℕ → ℤ × ℤ × ℕ → ℤ × ℤ × ℕ
  | [], acc => acc
  | dj :: rest, acc =>
    let acc' :=
      if IsAdjacent G s di dj && decide (G.GetEdgeIndex di dj < acc.2.2) then
        ((di : ℤ), (dj : ℤ), G.GetEdgeIndex di dj)
      else acc
    findMinEdgeInner G s di rest acc'

/-- The outer search loop of `Expand` over `deep[u]`. -/
def findMinEdge (G : Graph) (s : MState) :
    List ℕ → List ℕ → ℤ × ℤ × ℕ → ℤ × ℤ × ℕ
  | [], _, acc => acc
  | di :: rest, dv, acc => findMinEdge G s rest dv (findMinEdgeInner G s di dv acc)

/-- The rotation loop of `Expand`: move members of `shallow[u]` from the
front to the back until the front member's `deep` contains `p` (a full
rotation leaves the list unchanged when no member contains `p`). -/
def rotateToP (s : MState) (p : ℤ) : List ℕ → ℕ → List ℕ
  | l, 0 => l
  | [], _ + 1 => []
  | si :: rest, k + 1 =>
    if (deepOf s si).any (fun x => (x : ℤ) == p) then si :: rest
    else rotateToP s p (rest ++ [si]) k

/-- The re-mating walk of `Expand` along the tail of the rotated odd
circuit: `mate[*it] = *itnext; mate[*itnext] = *it`. -/
def pairUp (mate : List ℤ) : List ℕ → List ℤ
  | [] => mate
  | [_] => mate
  | a :: b :: rest => pairUp (upd (upd mate a (b : ℤ)) b (a : ℤ)) rest

/-- The deactivation loop shared by `Expand` and `DestroyBlossom`:
`outer[s] = s` and `outer[j] = s` for every `j ∈ deep[s]`, for each
member `s` of the given list. -/
def setOuterList (s : MState) (outer : List ℕ) : List ℕ → List ℕ
  | [] => outer
  | si :: rest =>
    let o1 := upd outer si si
    let o2 := (deepOf s si).foldl (fun o j => upd o j si) o1
    setOuterList s o2 rest

/-- Embedding of `Expand(u, expandBlocked)`.  The C++ recursion is fuel-indexed;
`none` means the fuel ran out (the C++ code would keep recursing). -/
def Expand (G : Graph) : ℕ → Bool → ℕ → MState → Option MState
  | 0, _, _, _ => none
  | fuel + 1, eb, u, s =>
    let v := outerOf s (mateOf s u).toNat
    let pqi := findMinEdge G s (deepOf s u) (deepOf s v) (-1, -1, s.m)
    let p := pqi.1
    let q := pqi.2.1
    let s1 := { s with mate := upd (upd s.mate u q) v p }
    if decide (u < s1.n) || (blockedOf s1 u && !eb) then some s1
    else
      let sh := rotateToP s1 p (shallowOf s1 u) (shallowOf s1 u).length
      let s2 := { s1 with shallow := upd s1.shallow u sh }
      let s3 :=
        match sh with
        | [] => s2
        | t0 :: rest => { s2 with mate := pairUp (upd s2.mate t0 (mateOf s2 u)) rest }
      let s4 := { s3 with outer := setOuterList s3 s3.outer sh }
      let s5 := { s4 with active := upd s4.active u false, free := s4.free ++ [u] }
      sh.foldl (fun acc x => acc.bind (Expand G fuel eb x)) (some s5)

/-- Embedding of `DestroyBlossom(t)`. -/
def DestroyBlossom (G : Graph) : ℕ → ℕ → MState → Option MState
  | 0, _, _ => none
  | fuel + 1, t, s =>
    if decide (t < s.n) || (blockedOf s t && GREATER (dualOf s t) (Q.ofInt 0)) then some s
    else
      let step := fun (acc : Option MState) (si : ℕ) =>
        acc.bind (fun st =>
          let o1 := upd st.outer si si
          let o2 := (deepOf st si).foldl (fun o j => upd o j si) o1
          DestroyBlossom G fuel si { st with outer := o2 })
      ((shallowOf s t).foldl step (some s)).bind (fun s2 =>
        some { s2 with
          active := upd s2.active t false
          blocked := upd s2.blocked t false
          free := s2.free ++ [t]
          mate := upd s2.mate t (-1) })

/-- Embedding of `Reset()`: drop the forest (destroying every active outermost
blossom that survives `DestroyBlossom`'s blocked check), then requeue
every unmatched outermost vertex as a forest root. -/
def Reset (G : Graph) (fuel : ℕ) (s : MState) : Option MState :=
  ((List.range (2 * s.n)).foldl
      (fun acc i =>
        acc.bind (fun st =>
          let st := { st with forest := upd st.forest i (-1), root := upd st.root i i }
          if decide (s.n ≤ i) && activeOf st i && (outerOf st i == i) then
            DestroyBlossom G fuel i st
          else some st))
      (some s)).bind
    (fun s1 =>
      let s2 := { s1 with visited := List.replicate (2 * s1.n) false, forestList := [] }
      some ((List.range s2.n).foldl
        (fun st i =>
          if mateOf st (outerOf st i) == -1 then
            let st := { st with type := upd st.type (outerOf st i) 2 }
            let st :=
              if !(visitedOf st (outerOf st i)) then
                { st with forestList := st.forestList ++ [i] }
              else st
            { st with visited := upd st.visited (outerOf st i) true }
          else { st with type := upd st.type (outerOf st i) 0 })
        s2))

/-- The marking walk of `Blossom`: from `u` to its root, marking every
outermost blossom on the way. -/
def markPath (s : MState) : ℕ → ℤ → List Bool → Option (List Bool)
  | 0, _, _ => none
  | fuel + 1, u_, inPath =>
    if u_ == -1 then some inPath
    else
      markPath s fuel (forestOf s (outerOf s u_.toNat))
        (upd inPath (outerOf s u_.toNat) true)

/-- The tip search of `Blossom`: walk up from `outer[v]` until a marked
outermost blossom is hit. -/
def findTip (s : MState) : ℕ → ℕ → List Bool → Option ℕ
  | 0, _, _ => none
  | fuel + 1, v_, inPath =>
    if nth false inPath v_ then some v_
    else findTip s fuel (outerOf s (forestOf s v_).toNat) inPath

/-- The circuit trace of `Blossom` on the `u` side (`push_front` while
climbing to the tip). -/
def circuitUp (s : MState) : ℕ → ℕ → ℕ → List ℕ → Option (List ℕ)
  | 0, _, _, _ => none
  | fuel + 1, u_, tipT, acc =>
    if u_ == tipT then some acc
    else
      let u2 := outerOf s (forestOf s u_).toNat
      circuitUp s fuel u2 tipT (u2 :: acc)

/-- The circuit trace of `Blossom` on the `v` side (`push_back` while
climbing to the tip, tip excluded). -/
def vSide (s : MState) : ℕ → ℕ → ℕ → List ℕ → Option (List ℕ)
  | 0, _, _, _ => none
  | fuel + 1, v_, tipT, acc =>
    if v_ == tipT then some acc
    else vSide s fuel (outerOf s (forestOf s v_).toNat) tipT (acc ++ [v_])

/-- Embedding of `Blossom(u, v)`: contract the odd circuit through `u`, `v` and their
first common forest ancestor into a fresh pseudo-vertex, returning its
index. -/
def Blossom (_G : Graph) (fuel : ℕ) (u v : ℕ) (s : MState) : Option (ℕ × MState) :=
  let t := nth 0 s.free (s.free.length - 1)
  let s := { s with free := s.free.dropLast }
  (markPath s fuel (u : ℤ) (List.replicate (2 * s.n) false)).bind (fun inPath =>
    (findTip s fuel (outerOf s v) inPath).bind (fun tipT =>
      let s := { s with tip := upd s.tip t tipT }
      (circuitUp s fuel (outerOf s u) tipT [outerOf s u]).bind (fun circ =>
        (vSide s fuel (outerOf s v) tipT circ).bind (fun shT =>
          let dAndO := shT.foldl
            (fun (a : List ℕ × List ℕ) u_ =>
              let o1 := upd a.2 u_ t
              (deepOf s u_).foldl (fun (b : List ℕ × List ℕ) j => (b.1 ++ [j], upd b.2 j t))
                (a.1, o1))
            ([], s.outer)
          let s := { s with
            shallow := upd s.shallow t shT
            deep := upd s.deep t dAndO.1
            outer := dAndO.2 }
          let s := { s with
            forest := upd s.forest t (forestOf s (tipOf s t))
            type := upd s.type t 2
            root := upd s.root t (rootOf s (tipOf s t))
            active := upd s.active t true }
          let s := { s with
            outer := upd s.outer t t
            mate := upd s.mate t (mateOf s (tipOf s t)) }
          some (t, s)))))

/-- One phase of `Augment`'s climb towards a root: step two levels up
through the forest, re-mate the outer pair, expand both. -/
def augLoop (G : Graph) : ℕ → ℕ → ℤ → MState → Option MState
  | 0, _, _, _ => none
  | fuel + 1, p, fp, s =>
    if fp == -1 then some s
    else
      let q := outerOf s (forestOf s p).toNat
      let p' := outerOf s (forestOf s q).toNat
      let fp' := forestOf s p'
      let s := { s with mate := upd (upd s.mate p' (q : ℤ)) q (p' : ℤ) }
      (Expand G fuel false p' s).bind (fun s =>
        (Expand G fuel false q s).bind (fun s =>
          augLoop G fuel p' fp' s))

/-- Embedding of `Augment(u, v)`: toggle the matching along the path
`root[u], …, u, v, …, root[v]`, expanding every outer blossom touched. -/
def Augment (G : Graph) (fuel : ℕ) (u v : ℕ) (s : MState) : Option MState :=
  let p := outerOf s u
  let q := outerOf s v
  let outv := q
  let fp := forestOf s p
  let s := { s with mate := upd (upd s.mate p (q : ℤ)) q (p : ℤ) }
  (Expand G fuel false p s).bind (fun s =>
    (Expand G fuel false q s).bind (fun s =>
      (augLoop G fuel p fp s).bind (fun s =>
        augLoop G fuel outv (forestOf s outv) s)))

/-- The scan of `Grow` along the adjacency list of an even vertex `u`:
skip blocked edges and odd neighbours, extend the forest through
unlabeled neighbours, and report the first augmenting path or blossom
found. -/
inductive ScanEv where
  | aug (u v : ℕ)
  | blo (u v : ℕ)
deriving Repr

def growScanAdj (G : Graph) (u : ℕ) : List ℕ → MState → MState × Option ScanEv
  | [], s => (s, none)
  | v :: rest, s =>
    if IsEdgeBlockedUV G s u v then growScanAdj G u rest s
    else if typeOf s (outerOf s v) == ODD then growScanAdj G u rest s
    else if typeOf s (outerOf s v) != EVEN then
      let vm := (mateOf s (outerOf s v)).toNat
      let s := { s with forest := upd s.forest (outerOf s v) (u : ℤ) }
      let s := { s with type := upd s.type (outerOf s v) ODD }
      let s := { s with root := upd s.root (outerOf s v) (rootOf s (outerOf s u)) }
      let s := { s with forest := upd s.forest (outerOf s vm) (v : ℤ) }
      let s := { s with type := upd s.type (outerOf s vm) EVEN }
      let s := { s with root := upd s.root (outerOf s vm) (rootOf s (outerOf s u)) }
      let s :=
        if !(visitedOf s (outerOf s vm)) then
          { s with forestList := s.forestList ++ [vm],
                   visited := upd s.visited (outerOf s vm) true }
        else s
      growScanAdj G u rest s
    else if rootOf s (outerOf s v) != rootOf s (outerOf s u) then (s, some (ScanEv.aug u v))
    else if outerOf s u != outerOf s v then (s, some (ScanEv.blo u v))
    else growScanAdj G u rest s

/-- The scan of `Grow` over the deep vertices of the current forest
element. -/
def growScanDeep (G : Graph) : List ℕ → MState → MState × Option ScanEv
  | [], s => (s, none)
  | u :: rest, s =>
    match growScanAdj G u (G.AdjList u) s with
    | (s, none) => growScanDeep G rest s
    | (s, some ev) => (s, some ev)

/-- The BFS loop of `Grow`; when the queue empties, `perfect` is set
from the mates of the original vertices. -/
def growLoop (G : Graph) : ℕ → MState → Option MState
  | 0, _ => none
  | fuel + 1, s =>
    match s.forestList with
    | [] =>
      let perf := (List.range s.n).all (fun i => mateOf s (outerOf s i) != -1)
      some { s with perfect := perf }
    | f0 :: rest =>
      let w := outerOf s f0
      let s := { s with forestList := rest }
      match growScanDeep G (deepOf s w) s with
      | (s, none) => growLoop G fuel s
      | (s, some (ScanEv.aug u v)) =>
        (Augment G fuel u v s).bind (fun s =>
          (Reset G fuel s).bind (fun s => growLoop G fuel s))
      | (s, some (ScanEv.blo u v)) =>
        (Blossom G fuel u v s).bind (fun bs =>
          let s := { bs.2 with forestList := bs.1 :: bs.2.forestList,
                               visited := upd bs.2.visited bs.1 true }
          growLoop G fuel s)

/-- Embedding of `Grow()`: reset, then grow the alternating forest. -/
def Grow (G : Graph) (fuel : ℕ) (s : MState) : Option MState :=
  (Reset G fuel s).bind (growLoop G fuel)

/-- The per-edge degree count of `Heuristic` (blocked edges skipped). -/
def degreesOf (G : Graph) (s : MState) : List ℕ :=
  (List.range s.m).foldl
    (fun deg i =>
      if IsEdgeBlockedE s i then deg
      else
        let uv := G.GetEdge i
        let d1 := upd deg uv.1 (nth 0 deg uv.1 + 1)
        upd d1 uv.2 (nth 0 d1 uv.2 + 1))
    (List.replicate G.n 0)

/-- Modelled from the spec: the `BinaryHeap` of `Heuristic` delivers the
vertices in non-decreasing degree; "exact tie-breaking is irrelevant to
correctness", ties are delivered here in vertex order. -/
def insSorted (key : ℕ → ℕ) (x : ℕ) : List ℕ → List ℕ
  | [] => [x]
  | h :: t =>
    if key x < key h || (key x == key h && x ≤ h) then x :: h :: t
    else h :: insSorted key x t

def sortVerts (key : ℕ → ℕ) : List ℕ → List ℕ
  | [] => []
  | h :: t => insSorted key h (sortVerts key t)

/-- The matching loop of `Heuristic`: each unmatched vertex (taken in
non-decreasing degree) is matched to its unmatched unblocked neighbour
of minimum degree. -/
def heurLoop (G : Graph) (deg : List ℕ) : List ℕ → MState → MState
  | [], s => s
  | u :: rest, s =>
    if mateOf s (outerOf s u) == -1 then
      let mn := (G.AdjList u).foldl
        (fun (mn : ℤ) v =>
          if IsEdgeBlockedUV G s u v || (outerOf s u == outerOf s v)
              || (mateOf s (outerOf s v) != -1) then mn
          else if mn == -1 || decide (nth 0 deg v < nth 0 deg mn.toNat) then (v : ℤ)
          else mn)
        (-1)
      if mn != -1 then
        heurLoop G deg rest
          { s with mate := upd (upd s.mate (outerOf s u) mn) (outerOf s mn.toNat) (u : ℤ) }
      else heurLoop G deg rest s
    else heurLoop G deg rest s

/-- Embedding of `Heuristic()`. -/
def Heuristic (G : Graph) (s : MState) : MState :=
  let deg := degreesOf G s
  heurLoop G deg (sortVerts (fun i => nth 0 deg i) (List.range s.n)) s

/-- The `e1` candidate test of `UpdateDualCosts`: the edge joins an EVEN
outer blossom and an UNLABELED one. -/
def e1cond (G : Graph) (s : MState) (i : ℕ) : Bool :=
  let uv := G.GetEdge i
  let tu := typeOf s (outerOf s uv.1)
  let tv := typeOf s (outerOf s uv.2)
  (tu == EVEN && tv == UNLABELED) || (tv == EVEN && tu == UNLABELED)

/-- The `e2` candidate test of `UpdateDualCosts`: the edge joins two
distinct EVEN outer blossoms. -/
def e2cond (G : Graph) (s : MState) (i : ℕ) : Bool :=
  let uv := G.GetEdge i
  let tu := typeOf s (outerOf s uv.1)
  let tv := typeOf s (outerOf s uv.2)
  (outerOf s uv.1 != outerOf s uv.2) && tu == EVEN && tv == EVEN

/-- The `e3` candidate test of `UpdateDualCosts`: an active ODD outer
pseudo-vertex. -/
def e3cond (s : MState) (i : ℕ) : Bool :=
  activeOf s i && (i == outerOf s i) && (typeOf s (outerOf s i) == ODD)

/-- The edge scan of `UpdateDualCosts` computing the `(inite1, e1)` and
`(inite2, e2)` accumulators in one pass (`else if`, exactly as in the
source). -/
def dualEdgeFold (G : Graph) (s : MState) : (Bool × Q) × (Bool × Q) :=
  (List.range s.m).foldl
    (fun acc i =>
      if e1cond G s i then
        (if !acc.1.1 || GREATER acc.1.2 (slackOf s i) then (true, slackOf s i) else acc.1,
         acc.2)
      else if e2cond G s i then
        (acc.1,
         if !acc.2.1 || GREATER acc.2.2 (slackOf s i) then (true, slackOf s i) else acc.2)
      else acc)
    ((false, Q.ofInt 0), (false, Q.ofInt 0))

/-- The pseudo-vertex scan of `UpdateDualCosts` computing `(inite3, e3)`. -/
def e3Fold (s : MState) : Bool × Q :=
  (List.range s.n).foldl
    (fun acc k =>
      if e3cond s (s.n + k) && (!acc.1 || GREATER acc.2 (dualOf s (s.n + k))) then
        (true, dualOf s (s.n + k))
      else acc)
    (false, Q.ofInt 0)

/-- The dual step `e` of `UpdateDualCosts`: the first initialized of
`e1`, `e2`, `e3`, lowered to `e2/2` and to `e3` through `GREATER`. -/
def computeE (G : Graph) (s : MState) : Q :=
  let ee := dualEdgeFold G s
  let e3p := e3Fold s
  let e := if ee.1.1 then ee.1.2 else if ee.2.1 then ee.2.2
           else if e3p.1 then e3p.2 else Q.ofInt 0
  let e := if GREATER e (Q.half ee.2.2) && ee.2.1 then Q.half ee.2.2 else e
  if GREATER e e3p.2 && e3p.1 then e3p.2 else e

/-- The dual update loop of `UpdateDualCosts`: `dual[even] += e`,
`dual[odd] −= e` over active outermost blossoms. -/
def dualDelta (e : Q) (s : MState) (i : ℕ) (d : Q) : Q :=
  if i == outerOf s i then
    if activeOf s i && (typeOf s (outerOf s i) == EVEN) then Q.add d e
    else if activeOf s i && (typeOf s (outerOf s i) == ODD) then Q.sub d e
    else d
  else d

def applyDual (e : Q) (s : MState) : MState :=
  { s with dual := iterUpd (Q.ofInt 0) (dualDelta e s) s.dual (2 * s.n) }

/-- The slack update loop of `UpdateDualCosts` over cross-blossom
edges. -/
def slackDelta (G : Graph) (e : Q) (s : MState) (i : ℕ) (sl : Q) : Q :=
  let uv := G.GetEdge i
  let tu := typeOf s (outerOf s uv.1)
  let tv := typeOf s (outerOf s uv.2)
  if outerOf s uv.1 != outerOf s uv.2 then
    if tu == EVEN && tv == EVEN then Q.sub sl (Q.double e)
    else if tu == ODD && tv == ODD then Q.add sl (Q.double e)
    else if (tv == UNLABELED && tu == EVEN) || (tu == UNLABELED && tv == EVEN) then
      Q.sub sl e
    else if (tv == UNLABELED && tu == ODD) || (tu == UNLABELED && tv == ODD) then
      Q.add sl e
    else sl
  else sl

def applySlack (G : Graph) (e : Q) (s : MState) : MState :=
  { s with slack := iterUpd (Q.ofInt 0) (slackDelta G e s) s.slack s.m }

/-- The final sweep of `UpdateDualCosts` over pseudo-vertices: block
those with positive dual, unblock (destroy or expand) the blocked active
ones whose dual returned to zero. -/
def blockedSweep (G : Graph) (fuel : ℕ) (s : MState) : Option MState :=
  (List.range s.n).foldl
    (fun acc k =>
      acc.bind (fun st =>
        let i := st.n + k
        if GREATER (dualOf st i) (Q.ofInt 0) then
          some { st with blocked := upd st.blocked i true }
        else if activeOf st i && blockedOf st i then
          if mateOf st i == -1 then DestroyBlossom G fuel i st
          else Expand G fuel false i { st with blocked := upd st.blocked i false }
        else some st))
    (some s)

/-- Embedding of `UpdateDualCosts()`. -/
def UpdateDualCosts (G : Graph) (fuel : ℕ) (s : MState) : Option MState :=
  let e := computeE G s
  blockedSweep G fuel (applySlack G e (applyDual e s))

/-- Embedding of `RetrieveMatching()`: expand every remaining active mated outermost
blossom with `expandBlocked = true`, then collect the indices of the
edges `(u, v)` with `mate[u] == v`. -/
def RetrieveMatching (G : Graph) (fuel : ℕ) (s : MState) : Option (List ℕ × MState) :=
  ((List.range (2 * s.n)).foldl
      (fun acc i =>
        acc.bind (fun st =>
          if activeOf st i && (mateOf st i != -1) && (outerOf st i == i) then
            Expand G fuel true i st
          else some st))
      (some s)).bind
    (fun s =>
      let matching := (List.range s.m).foldl
        (fun acc i =>
          let uv := G.GetEdge i
          if mateOf s uv.1 == (uv.2 : ℤ) then acc ++ [i] else acc)
        []
      some (matching, s))

/-- Embedding of `SolveMaximumMatching()`: clear, grow, retrieve. -/
def SolveMaximumMatching (G : Graph) (fuel : ℕ) : Option (List ℕ × MState) :=
  (Grow G fuel (Clear G)).bind (RetrieveMatching G fuel)

/-- The single failure kind of the engine: the `throw` for a graph with
no perfect matching is its only exception site. -/
inductive MatchError where
  | noPerfectMatching
deriving DecidableEq, Repr

/-- The primal-dual outer loop of `SolveMinimumCostPerfectMatching`:
`while (not perfect) { Heuristic(); Grow(); UpdateDualCosts(); Reset(); }`. -/
def solveLoop (G : Graph) : ℕ → ℕ → MState → Option MState
  | 0, _, _ => none
  | fuel + 1, innerFuel, s =>
    if s.perfect then some s
    else
      (Grow G innerFuel (Heuristic G s)).bind (fun s =>
        (UpdateDualCosts G innerFuel s).bind (fun s =>
          (Reset G innerFuel s).bind (fun s =>
            solveLoop G fuel innerFuel s)))

/-- Embedding of `SolveMinimumCostPerfectMatching(cost)`. -/
def InitCostState (G : Graph) (cost : List Q) : MState :=
  PositiveCosts { Clear G with slack := cost }

def SolveMinimumCostPerfectMatching (G : Graph) (fuel : ℕ) (cost : List Q) :
    Option (Except MatchError (List ℕ × Q)) :=
  (SolveMaximumMatching G fuel).bind (fun ms =>
    if !ms.2.perfect then some (Except.error MatchError.noPerfectMatching)
    else
      let s := { InitCostState G cost with perfect := false }
      (solveLoop G fuel fuel s).bind (fun s =>
        (RetrieveMatching G fuel s).bind (fun r =>
          let obj := r.1.foldl (fun o i => Q.add o (nth (Q.ofInt 0) cost i)) (Q.ofInt 0)
          some (Except.ok (r.1, obj)))))

/-- The running-minimum step of the dual-step scans once the accumulator
is initialized: `if GREATER(acc, x) acc = x`. -/
def minStep (a x : Q) : Q := if GREATER a x then x else a

/-- The full accumulator step `if (!init || GREATER(acc, x)) { acc = x;
init = true }` of the scans in `UpdateDualCosts`. -/
def tolStep (acc : Bool × Q) (x : Q) : Bool × Q :=
  if !acc.1 || GREATER acc.2 x then (true, x) else acc

/-- The list of `e1` candidate slacks, in edge order. -/
def e1cands (G : Graph) (s : MState) : List Q :=
  (List.range s.m).filterMap (fun i => if e1cond G s i then some (slackOf s i) else none)

/-- The list of `e2` candidate slacks, in edge order. -/
def e2cands (G : Graph) (s : MState) : List Q :=
  (List.range s.m).filterMap (fun i => if e2cond G s i then some (slackOf s i) else none)

/-- The list of `e3` candidate duals, in pseudo-vertex order. -/
def e3cands (s : MState) : List Q :=
  (List.range s.n).filterMap
    (fun k => if e3cond s (s.n + k) then some (dualOf s (s.n + k)) else none)

/-- The `inite1` flag after the edge scan. -/
def e1flag (G : Graph) (s : MState) : Bool := (dualEdgeFold G s).1.1
/-- The `e1` value after the edge scan. -/
def e1val (G : Graph) (s : MState) : Q := (dualEdgeFold G s).1.2
/-- The `inite2` flag after the edge scan. -/
def e2flag (G : Graph) (s : MState) : Bool := (dualEdgeFold G s).2.1
/-- The `e2` value after the edge scan. -/
def e2val (G : Graph) (s : MState) : Q := (dualEdgeFold G s).2.2
/-- The `inite3` flag after the pseudo-vertex scan. -/
def e3flag (s : MState) : Bool := (e3Fold s).1
/-- The `e3` value after the pseudo-vertex scan. -/
def e3val (s : MState) : Q := (e3Fold s).2

/-- The selection `e = e1 / e2 / e3 / 0` before the two lowering steps. -/
def eInit (G : Graph) (s : MState) : Q :=
  if e1flag G s then e1val G s
  else if e2flag G s then e2val G s
  else if e3flag s then e3val s
  else Q.ofInt 0

/-- The value of `e` after the `e2/2` lowering step. -/
def eMid (G : Graph) (s : MState) : Q :=
  if GREATER (eInit G s) (Q.half (e2val G s)) && e2flag G s then Q.half (e2val G s)
  else eInit G s

/-- The slack adjustment for a cross-blossom edge as a function of the
labels of its two outer endpoints, in the spec's words: `±e` or `±2e`
"according to the pair of labels" (and `0` for an EVEN–ODD or
UNLABELED–UNLABELED pair). -/
def labelAdj (tu tv : ℕ) (e : ℚ) : ℚ :=
  if tu = EVEN ∧ tv = EVEN then -(2 * e)
  else if tu = ODD ∧ tv = ODD then 2 * e
  else if (tv = UNLABELED ∧ tu = EVEN) ∨ (tu = UNLABELED ∧ tv = EVEN) then -e
  else if (tv = UNLABELED ∧ tu = ODD) ∨ (tu = UNLABELED ∧ tv = ODD) then e
  else 0

/-- Modelled from the claim for comparison: the exact minimum of a list
of values, with no tolerance. -/
def exactMinQ : List Q → Option Q
  | [] => none
  | x :: rest => some (rest.foldl (fun mn c => if Q.blt c mn then c else mn) x)

/-- Modelled from the claim for comparison: the exact
`min(e1, e2/2, e3)` over the initialized candidates, where `e1`, `e2`,
`e3` are the exact minima of the candidate lists. -/
def claimDualStep (G : Graph) (s : MState) : Option Q :=
  exactMinQ (e1cands G s ++ (e2cands G s).map Q.half ++ e3cands s)

/-- The concrete graph of the C3 counterexample: two disjoint edges. -/
def cexG3 : Graph := ⟨4, [(0, 1), (2, 3)]⟩

/-- The concrete state of the C3 counterexample: both edges join an
EVEN outer vertex to an UNLABELED one, with slacks `1` and `1 − ε/2`. -/
def cexS3 : MState :=
  { n := 4, m := 2
    outer := [0, 1, 2, 3, 4, 5, 6, 7]
    deep := [[0], [1], [2], [3], [], [], [], []]
    shallow := [[], [], [], [], [], [], [], []]
    tip := [0, 1, 2, 3, 4, 5, 6, 7]
    active := [true, true, true, true, false, false, false, false]
    type := [2, 0, 2, 0, 0, 0, 0, 0]
    forest := List.replicate 8 (-1)
    root := [0, 1, 2, 3, 4, 5, 6, 7]
    blocked := List.replicate 8 false
    dual := List.replicate 8 (Q.ofInt 0)
    slack := [Q.ofInt 1, Q.sub (Q.ofInt 1) (Q.half EPSILON)]
    mate := List.replicate 8 (-1)
    free := [4, 5, 6, 7]
    forestList := []
    visited := List.replicate 8 false
    perfect := false }

/-- The concrete graph of the C4 counterexample. -/
def cexG4 : Graph := ⟨3, [(0, 1), (0, 2)]⟩

/-- The concrete state of the C4 counterexample: vertex `0` is mated
into the blossom `3` with `deep[3] = [1, 2]`; the cross edge `(0, 1)`
has index `0` but is blocked (`slack = 1`), the cross edge `(0, 2)` has
index `1` and is tight. -/
def cexS4 : MState :=
  { n := 3, m := 2
    outer := [0, 3, 3, 3, 4, 5]
    deep := [[0], [1], [2], [1, 2], [], []]
    shallow := [[], [], [], [1, 2], [], []]
    tip := [0, 1, 2, 3, 4, 5]
    active := [true, true, true, true, false, false]
    type := [0, 0, 0, 0, 0, 0]
    forest := List.replicate 6 (-1)
    root := [0, 1, 2, 3, 4, 5]
    blocked := [false, false, false, true, false, false]
    dual := List.replicate 6 (Q.ofInt 0)
    slack := [Q.ofInt 1, Q.ofInt 0]
    mate := [1, -1, -1, 0, -1, -1]
    free := [4, 5]
    forestList := []
    visited := List.replicate 6 false
    perfect := false }

/-- Modelled from the claim for comparison: the minimum edge index over
the pairs `p ∈ du`, `q ∈ dv` that are adjacent in `G` (blocked or
not). -/
def claimMinCrossIdx (G : Graph) (du dv : List ℕ) : ℕ :=
  du.foldl
    (fun a p => dv.foldl
      (fun b q => if G.AdjMat p q then min b (G.GetEdgeIndex p q) else b) a)
    G.edges.length

/-- The concrete graph of the C5 counterexample: a 5-cycle `0 … 4` plus
vertex `5` joined to `0` and `2` (the spec's odd-blossom-forcing
scenario). -/
def cexG5 : Graph := ⟨6, [(0, 1), (1, 2), (2, 3), (3, 4), (4, 0), (5, 0), (5, 2)]⟩

/-- Unit costs on the 5-cycle, cost 10 on the two pendant edges. -/
def cexCost5 : List Q :=
  [Q.ofInt 1, Q.ofInt 1, Q.ofInt 1, Q.ofInt 1, Q.ofInt 1, Q.ofInt 10, Q.ofInt 10]

/-- The stable point after the third `Grow` of
`SolveMinimumCostPerfectMatching cexG5 80 cexCost5`: two full phase
rounds (Heuristic, Grow, UpdateDualCosts, Reset — exactly the order of
`solveLoop`), then the third Heuristic and Grow. -/
def cexRun5 : Option MState :=
  (Grow cexG5 80 (Heuristic cexG5 { InitCostState cexG5 cexCost5 with perfect := false })).bind
    (fun s => (UpdateDualCosts cexG5 80 s).bind
    (fun s => (Reset cexG5 80 s).bind
    (fun s => (Grow cexG5 80 (Heuristic cexG5 s)).bind
    (fun s => (UpdateDualCosts cexG5 80 s).bind
    (fun s => (Reset cexG5 80 s).bind
    (fun s => Grow cexG5 80 (Heuristic cexG5 s)))))))

/-- The concrete graph of the C5 witness. -/
def cexG5w : Graph := ⟨3, [(0, 1), (0, 2)]⟩

/-- The concrete state of the C5 witness: original vertex `0` is mated
to the blossom `4` with `deep[4] = [1, 2]`; both cross edges are
tight. -/
def cexS5w : MState :=
  { n := 3, m := 2
    outer := [0, 4, 4, 3, 4, 5]
    deep := [[0], [1], [2], [], [1, 2], []]
    shallow := [[], [], [], [], [1, 2], []]
    tip := [0, 1, 2, 3, 4, 5]
    active := [true, true, true, false, true, false]
    type := [0, 0, 0, 0, 0, 0]
    forest := List.replicate 6 (-1)
    root := [0, 1, 2, 3, 4, 5]
    blocked := [false, false, false, false, true, false]
    dual := List.replicate 6 (Q.ofInt 0)
    slack := [Q.ofInt 0, Q.ofInt 0]
    mate := [1, -1, -1, -1, 0, -1]
    free := [3, 5]
    forestList := []
    visited := List.replicate 6 false
    perfect := false }

/-- The concrete graph of the C7 counterexample. -/
def cexG7 : Graph := ⟨4, [(0, 1), (2, 3)]⟩

/-- A cost vector with a negative entry. -/
def cexCost7 : List Q := [Q.ofInt (-1), Q.ofInt 1]

/-- The concrete graph of the C10 counterexample. -/
def cexG10 : Graph := ⟨4, [(0, 1), (2, 3)]⟩

/-- Costs `−5` and `−5 − ε/2`. -/
def cexCost10 : List Q := [Q.ofInt (-5), Q.sub (Q.ofInt (-5)) (Q.half EPSILON)]

/-- The state right after `slack = cost` in
`SolveMinimumCostPerfectMatching`. -/
def cexS10 : MState := { Clear cexG10 with slack := cexCost10 }

/-- The concrete graph of the C2 witness: a path on three vertices (no
perfect matching). -/
def cexG2 : Graph := ⟨3, [(0, 1), (1, 2)]⟩

/-- Unit costs for the C2 witness. -/
def cexCost2 : List Q := [Q.ofInt 1, Q.ofInt 1]

/-- The concrete graph of the C8 counterexample: the triangle K3. -/
def cexG8 : Graph := ⟨3, [(0, 1), (1, 2), (0, 2)]⟩

/-- Unit costs on K3. -/
def cexCost8 : List Q := [Q.ofInt 1, Q.ofInt 1, Q.ofInt 1]

/-! Theorems: auxiliary lemmas first, then the claim theorems with
their counterexamples and witnesses. -/
theorem Q.den_pos (q : Q) : 0 < (q.den : ℚ) := by
  have : (0 : ℚ) < ((q.den1 + 1 : ℕ) : ℚ) := by positivity
  simpa [Q.den] using this

theorem Q.den_ne (q : Q) : ((q.den : ℕ) : ℚ) ≠ 0 := ne_of_gt q.den_pos

theorem Q.val_ofInt (n : ℤ) : (Q.ofInt n).val = (n : ℚ) := by
  simp [Q.val, Q.ofInt, Q.den]

theorem Q.den_add (a b : Q) : ((Q.add a b).den : ℚ) = (a.den : ℚ) * (b.den : ℚ) := by
  simp only [Q.den, Q.add]
  push_cast
  ring

theorem Q.den_sub (a b : Q) : ((Q.sub a b).den : ℚ) = (a.den : ℚ) * (b.den : ℚ) := by
  simp only [Q.den, Q.sub]
  push_cast
  ring

theorem Q.val_add (a b : Q) : (Q.add a b).val = a.val + b.val := by
  have ha := a.den_ne
  have hb := b.den_ne
  rw [Q.val, Q.den_add]
  show ((a.num * (b.den : ℤ) + b.num * (a.den : ℤ) : ℤ) : ℚ) / _ = _
  rw [Q.val, Q.val]
  field_simp

theorem Q.val_sub (a b : Q) : (Q.sub a b).val = a.val - b.val := by
  have ha := a.den_ne
  have hb := b.den_ne
  rw [Q.val, Q.den_sub]
  show ((a.num * (b.den : ℤ) - b.num * (a.den : ℤ) : ℤ) : ℚ) / _ = _
  rw [Q.val, Q.val]
  field_simp
  ring

theorem Q.den_half (a : Q) : ((Q.half a).den : ℚ) = 2 * (a.den : ℚ) := by
  simp only [Q.den, Q.half]
  push_cast
  ring

theorem Q.val_half (a : Q) : (Q.half a).val = a.val / 2 := by
  rw [Q.val, Q.den_half]
  show (a.num : ℚ) / (2 * (a.den : ℚ)) = _
  rw [Q.val, div_div]
  ring_nf

theorem Q.val_double (a : Q) : (Q.double a).val = 2 * a.val := by
  rw [Q.val, Q.double]
  show ((2 * a.num : ℤ) : ℚ) / ((⟨2 * a.num, a.den1⟩ : Q).den : ℚ) = _
  have hden : ((⟨2 * a.num, a.den1⟩ : Q).den : ℚ) = (a.den : ℚ) := rfl
  rw [hden, Q.val]
  push_cast
  ring

theorem Q.blt_iff (a b : Q) : Q.blt a b = true ↔ a.val < b.val := by
  rw [Q.blt, decide_eq_true_iff, Q.val, Q.val,
    div_lt_div_iff₀ a.den_pos b.den_pos]
  constructor
  · intro h
    exact_mod_cast h
  · intro h
    exact_mod_cast h

theorem Q.qeq_iff (a b : Q) : Q.qeq a b = true ↔ a.val = b.val := by
  rw [Q.qeq, decide_eq_true_iff, Q.val, Q.val,
    div_eq_div_iff a.den_ne b.den_ne]
  constructor
  · intro h
    exact_mod_cast h
  · intro h
    exact_mod_cast h

theorem EPSILON_val : EPSILON.val = 1 / 10000000000 := by
  norm_num [EPSILON, Q.val, Q.den]

theorem GREATER_iff (a b : Q) : GREATER a b = true ↔ EPSILON.val < a.val - b.val := by
  rw [GREATER, Q.blt_iff, Q.val_sub]

theorem length_upd (l : List α) (i : ℕ) (a : α) : (upd l i a).length = l.length := by
  induction l generalizing i with
  | nil => rfl
  | cons h t ih => cases i <;> simp [upd, ih]

theorem nth_upd_eq (d : α) (l : List α) (i : ℕ) (a : α) (h : i < l.length) :
    nth d (upd l i a) i = a := by
  induction l generalizing i with
  | nil => simp at h
  | cons x t ih =>
    cases i with
    | zero => rfl
    | succ j => exact ih j (by simpa using h)

theorem nth_upd_ne (d : α) (l : List α) (i j : ℕ) (a : α) (h : i ≠ j) :
    nth d (upd l i a) j = nth d l j := by
  induction l generalizing i j with
  | nil => rfl
  | cons x t ih =>
    cases i with
    | zero => cases j with
      | zero => exact absurd rfl h
      | succ k => rfl
    | succ i' => cases j with
      | zero => rfl
      | succ k => exact ih i' k (fun hc => h (by rw [hc]))

theorem nth_upd (d : α) (l : List α) (i j : ℕ) (a : α) :
    nth d (upd l i a) j = if i = j ∧ i < l.length then a else nth d l j := by
  by_cases hij : i = j
  · subst hij
    by_cases hl : i < l.length
    · simp [hl, nth_upd_eq]
    · simp [hl]
      have : upd l i a = l := by
        induction l generalizing i with
        | nil => rfl
        | cons x t ih =>
          cases i with
          | zero => simp at hl
          | succ j =>
            simp [upd]
            exact ih _ (by simp at hl ⊢; omega)
      rw [this]
  · simp [hij, nth_upd_ne d l i j a hij]

theorem length_iterUpd (d : α) (f : ℕ → α → α) (l : List α) (k : ℕ) :
    (iterUpd d f l k).length = l.length := by
  induction k with
  | zero => rfl
  | succ k ih => simp [iterUpd, length_upd, ih]

theorem nth_iterUpd (d : α) (f : ℕ → α → α) (l : List α) (k i : ℕ) :
    nth d (iterUpd d f l k) i =
      if i < k ∧ i < l.length then f i (nth d l i) else nth d l i := by
  induction k with
  | zero => simp [iterUpd]
  | succ k ih =>
    rw [iterUpd, nth_upd]
    rw [length_iterUpd]
    by_cases hk : k = i
    · subst hk
      by_cases hl : k < l.length
      · simp [hl, ih, Nat.lt_succ_self]
      · simp [hl, ih]
    · rw [if_neg (by tauto), ih]
      by_cases hi : i < k
      · have : i < k + 1 := by omega
        by_cases hl : i < l.length <;> simp [hi, hl, this]
      · have h2 : ¬ i < k + 1 := by omega
        simp [hi, h2]

/-! Auxiliary lemmas for the proofs. -/

theorem bool_eq_of_iff {a b : Bool} (h : a = true ↔ b = true) : a = b := by
  cases a <;> cases b <;> simp_all

theorem nth_replicate (d a : α) (k i : ℕ) :
    nth d (List.replicate k a) i = if i < k then a else d := by
  induction k generalizing i with
  | zero => simp [nth]
  | succ k ih =>
    rw [List.replicate_succ]
    cases i with
    | zero => simp [nth]
    | succ j => rw [nth]; rw [ih j]; simp [Nat.succ_lt_succ_iff]

theorem nth_map (d : β) (d' : α) (f : α → β) (l : List α) (i : ℕ) (h : i < l.length) :
    nth d (l.map f) i = f (nth d' l i) := by
  induction l generalizing i with
  | nil => simp at h
  | cons x t ih =>
    cases i with
    | zero => rfl
    | succ j => exact ih j (by simpa using h)

theorem nth_range (d k i : ℕ) (h : i < k) : nth d (List.range k) i = i := by
  induction k generalizing i with
  | zero => omega
  | succ k ih =>
    rw [List.range_succ_eq_map]
    cases i with
    | zero => rfl
    | succ j =>
      show nth d ((List.range k).map Nat.succ) j = j + 1
      rw [nth_map d d Nat.succ _ j (by simpa using Nat.lt_of_succ_lt_succ h)]
      rw [ih j (Nat.lt_of_succ_lt_succ h)]

theorem EPS_val_pos : 0 < EPSILON.val := by rw [EPSILON_val]; norm_num

theorem tolStep_true (a x : Q) : tolStep (true, a) x = (true, minStep a x) := by
  cases hG : GREATER a x <;> simp [tolStep, minStep, hG]

theorem tolFold_true (l : List Q) : ∀ (a : Q),
    l.foldl tolStep (true, a) = (true, l.foldl minStep a) := by
  induction l with
  | nil => intro a; rfl
  | cons x r ih =>
    intro a
    rw [List.foldl_cons, tolStep_true, List.foldl_cons]
    exact ih _

theorem tolFold_shape (l : List Q) :
    l.foldl tolStep (false, Q.ofInt 0)
      = match l with
        | [] => (false, Q.ofInt 0)
        | x :: r => (true, r.foldl minStep x) := by
  cases l with
  | nil => rfl
  | cons x r =>
    rw [List.foldl_cons]
    have h1 : tolStep (false, Q.ofInt 0) x = (true, x) := by simp [tolStep]
    rw [h1, tolFold_true]

theorem tolFold_cons (x : Q) (r : List Q) :
    (x :: r).foldl tolStep (false, Q.ofInt 0) = (true, r.foldl minStep x) := by
  rw [tolFold_shape]

theorem minFold_strong (l : List Q) : ∀ (a : Q),
    (l.foldl minStep a = a ∨ l.foldl minStep a ∈ l)
    ∧ (l.foldl minStep a = a ∨ (l.foldl minStep a).val < a.val - EPSILON.val)
    ∧ (∀ c ∈ l, (l.foldl minStep a).val ≤ c.val + EPSILON.val) := by
  induction l with
  | nil =>
    intro a
    exact ⟨Or.inl rfl, Or.inl rfl, by simp⟩
  | cons x r ih =>
    intro a
    rw [List.foldl_cons]
    by_cases hG : GREATER a x = true
    · have hax : x.val < a.val - EPSILON.val := by
        have := (GREATER_iff a x).mp hG
        linarith
      have hx := ih x
      rw [show minStep a x = x from by simp [minStep, hG]]
      refine ⟨?_, ?_, ?_⟩
      · rcases hx.1 with h | h
        · exact Or.inr (by rw [h]; exact List.mem_cons_self x r)
        · exact Or.inr (List.mem_cons_of_mem _ h)
      · rcases hx.2.1 with h | h
        · exact Or.inr (by rw [h]; linarith)
        · exact Or.inr (by linarith [EPS_val_pos])
      · intro c hc
        rcases List.mem_cons.mp hc with rfl | hc
        · rcases hx.2.1 with h | h
          · rw [h]; linarith [EPS_val_pos]
          · linarith [EPS_val_pos]
        · exact hx.2.2 c hc
    · have hax : a.val ≤ x.val + EPSILON.val := by
        have h2 : ¬ (EPSILON.val < a.val - x.val) := fun hh => hG ((GREATER_iff a x).mpr hh)
        linarith [not_lt.mp h2]
      have hx := ih a
      rw [show minStep a x = a from by simp [minStep, hG]]
      refine ⟨?_, ?_, ?_⟩
      · rcases hx.1 with h | h
        · exact Or.inl h
        · exact Or.inr (List.mem_cons_of_mem _ h)
      · exact hx.2.1
      · intro c hc
        rcases List.mem_cons.mp hc with rfl | hc
        · rcases hx.2.1 with h | h
          · rw [h]; exact hax
          · linarith [EPS_val_pos]
        · exact hx.2.2 c hc

theorem minFold_le_init (l : List Q) (a : Q) : (l.foldl minStep a).val ≤ a.val := by
  rcases (minFold_strong l a).2.1 with h | h
  · rw [h]
  · linarith [EPS_val_pos]

theorem minFold_mem (l : List Q) (a : Q) :
    l.foldl minStep a = a ∨ l.foldl minStep a ∈ l := (minFold_strong l a).1

theorem minFold_head_bound (x : Q) (r : List Q) :
    ∀ c ∈ x :: r, (r.foldl minStep x).val ≤ c.val + EPSILON.val := by
  intro c hc
  rcases List.mem_cons.mp hc with rfl | hc
  · linarith [minFold_le_init r c, EPS_val_pos]
  · exact (minFold_strong r x).2.2 c hc

theorem foldl_cond_filterMap {ι : Type} {α : Type} (c : ι → Bool) (v : ι → Q)
    (step : α → Q → α) (l : List ι) : ∀ (a : α),
    l.foldl (fun acc i => if c i then step acc (v i) else acc) a
      = (l.filterMap (fun i => if c i then some (v i) else none)).foldl step a := by
  induction l with
  | nil => intro a; rfl
  | cons i r ih =>
    intro a
    by_cases h : c i = true <;>
      simp [List.filterMap_cons, h, ih]

theorem foldl_pair_split {ι α β : Type} (F : α × β → ι → α × β)
    (f : ι → α → α) (g : ι → β → β)
    (hF : ∀ acc i, F acc i = (f i acc.1, g i acc.2)) (l : List ι) :
    ∀ (a : α) (b : β),
      l.foldl F (a, b) = (l.foldl (fun x i => f i x) a, l.foldl (fun x i => g i x) b) := by
  induction l with
  | nil => intro a b; rfl
  | cons i r ih =>
    intro a b
    rw [List.foldl_cons, hF, List.foldl_cons, List.foldl_cons]
    exact ih _ _

theorem e1cond_not_e2cond (G : Graph) (s : MState) (i : ℕ)
    (h : e1cond G s i = true) : e2cond G s i = false := by
  simp only [e1cond, EVEN, UNLABELED] at h
  simp only [e2cond, EVEN]
  rcases Bool.or_eq_true_iff.mp h with h' | h' <;>
  · have h1 := (Bool.and_eq_true_iff.mp h').1
    have h2 := (Bool.and_eq_true_iff.mp h').2
    rw [Nat.beq_eq_true_eq] at h1 h2
    cases hb : ((outerOf s (G.GetEdge i).1 != outerOf s (G.GetEdge i).2)
        && typeOf s (outerOf s (G.GetEdge i).1) == 2
        && typeOf s (outerOf s (G.GetEdge i).2) == 2) <;> simp_all

theorem dualEdgeFold_eq (G : Graph) (s : MState) :
    dualEdgeFold G s = ((e1cands G s).foldl tolStep (false, Q.ofInt 0),
                        (e2cands G s).foldl tolStep (false, Q.ofInt 0)) := by
  rw [dualEdgeFold]
  rw [foldl_pair_split _
      (fun i x => if e1cond G s i then tolStep x (slackOf s i) else x)
      (fun i x => if e1cond G s i then x
                  else if e2cond G s i then tolStep x (slackOf s i) else x)
      (by
        intro acc i
        by_cases h1 : e1cond G s i = true
        · simp only [h1, if_pos]
          rfl
        · rw [Bool.not_eq_true] at h1
          by_cases h2 : e2cond G s i = true
          · simp only [h1, h2, Bool.false_eq_true, if_false, if_pos]
            rfl
          · rw [Bool.not_eq_true] at h2
            simp only [h1, h2, Bool.false_eq_true, if_false])]
  refine Prod.ext ?_ ?_
  · rw [e1cands, ← foldl_cond_filterMap]
  · rw [e2cands, ← foldl_cond_filterMap]
    apply List.foldl_ext
    intro b i hi
    by_cases h1 : e1cond G s i = true
    · rw [if_pos h1, e1cond_not_e2cond G s i h1]
      simp
    · rw [Bool.not_eq_true] at h1
      rw [h1]
      simp

theorem e3Fold_eq (s : MState) :
    e3Fold s = (e3cands s).foldl tolStep (false, Q.ofInt 0) := by
  rw [e3Fold, e3cands, ← foldl_cond_filterMap]
  apply List.foldl_ext
  intro acc k hk
  by_cases h : e3cond s (s.n + k) = true
  · rw [if_pos h, h]
    simp only [Bool.true_and]
    rfl
  · rw [Bool.not_eq_true] at h
    rw [h]
    simp

theorem computeE_eq (G : Graph) (s : MState) :
    computeE G s =
      if GREATER (eMid G s) (e3val s) && e3flag s then e3val s else eMid G s := rfl

theorem eMid_le (G : Graph) (s : MState) : (eMid G s).val ≤ (eInit G s).val := by
  rw [eMid]
  by_cases h : (GREATER (eInit G s) (Q.half (e2val G s)) && e2flag G s) = true
  · rw [if_pos h]
    have hg := (GREATER_iff _ _).mp (Bool.and_eq_true_iff.mp h).1
    linarith [EPS_val_pos]
  · rw [if_neg h]

theorem computeE_le_eMid (G : Graph) (s : MState) :
    (computeE G s).val ≤ (eMid G s).val := by
  rw [computeE_eq]
  by_cases h : (GREATER (eMid G s) (e3val s) && e3flag s) = true
  · rw [if_pos h]
    have hg := (GREATER_iff _ _).mp (Bool.and_eq_true_iff.mp h).1
    linarith [EPS_val_pos]
  · rw [if_neg h]

theorem eMid_bound2 (G : Graph) (s : MState) (h2 : e2flag G s = true) :
    (eMid G s).val ≤ (Q.half (e2val G s)).val + EPSILON.val := by
  rw [eMid]
  by_cases h : GREATER (eInit G s) (Q.half (e2val G s)) = true
  · rw [h2, h]
    simp only [Bool.and_self, if_pos]
    linarith [EPS_val_pos]
  · rw [Bool.not_eq_true] at h
    rw [h]
    simp only [Bool.false_and, Bool.false_eq_true, if_false]
    have h3 : ¬ (EPSILON.val < (eInit G s).val - (Q.half (e2val G s)).val) := by
      intro hh
      have hg := (GREATER_iff _ _).mpr hh
      rw [h] at hg
      exact Bool.false_ne_true hg
    linarith [not_lt.mp h3]

theorem computeE_bound3 (G : Graph) (s : MState) (h3 : e3flag s = true) :
    (computeE G s).val ≤ (e3val s).val + EPSILON.val := by
  rw [computeE_eq]
  by_cases h : GREATER (eMid G s) (e3val s) = true
  · rw [h3, h]
    simp only [Bool.and_self, if_pos]
    linarith [EPS_val_pos]
  · rw [Bool.not_eq_true] at h
    rw [h]
    simp only [Bool.false_and, Bool.false_eq_true, if_false]
    have hh : ¬ (EPSILON.val < (eMid G s).val - (e3val s).val) :=
      fun hx => by rw [(GREATER_iff _ _).mpr hx] at h; cases h
    linarith [not_lt.mp hh]

theorem e1flag_iff (G : Graph) (s : MState) :
    e1flag G s = true ↔ e1cands G s ≠ [] := by
  rw [e1flag, dualEdgeFold_eq]
  cases h : e1cands G s with
  | nil => simp
  | cons x r => rw [tolFold_cons]; simp

theorem e2flag_iff (G : Graph) (s : MState) :
    e2flag G s = true ↔ e2cands G s ≠ [] := by
  rw [e2flag, dualEdgeFold_eq]
  cases h : e2cands G s with
  | nil => simp
  | cons x r => rw [tolFold_cons]; simp

theorem e3flag_iff (s : MState) : e3flag s = true ↔ e3cands s ≠ [] := by
  rw [e3flag, e3Fold_eq]
  cases h : e3cands s with
  | nil => simp
  | cons x r => rw [tolFold_cons]; simp

theorem e1val_bound (G : Graph) (s : MState) (c : Q) (hc : c ∈ e1cands G s) :
    (e1val G s).val ≤ c.val + EPSILON.val := by
  rw [e1val, dualEdgeFold_eq]
  cases h : e1cands G s with
  | nil => rw [h] at hc; cases hc
  | cons x r =>
    rw [h] at hc
    rw [tolFold_cons]
    exact minFold_head_bound x r c hc

theorem e2val_bound (G : Graph) (s : MState) (c : Q) (hc : c ∈ e2cands G s) :
    (e2val G s).val ≤ c.val + EPSILON.val := by
  rw [e2val, dualEdgeFold_eq]
  cases h : e2cands G s with
  | nil => rw [h] at hc; cases hc
  | cons x r =>
    rw [h] at hc
    rw [tolFold_cons]
    exact minFold_head_bound x r c hc

theorem e3val_bound (s : MState) (c : Q) (hc : c ∈ e3cands s) :
    (e3val s).val ≤ c.val + EPSILON.val := by
  rw [e3val, e3Fold_eq]
  cases h : e3cands s with
  | nil => rw [h] at hc; cases hc
  | cons x r =>
    rw [h] at hc
    rw [tolFold_cons]
    exact minFold_head_bound x r c hc

theorem computeE_mem (G : Graph) (s : MState)
    (hne : e1cands G s ≠ [] ∨ e2cands G s ≠ [] ∨ e3cands s ≠ []) :
    computeE G s = e1val G s ∨ computeE G s = e2val G s ∨
      computeE G s = Q.half (e2val G s) ∨ computeE G s = e3val s := by
  have hInit : eInit G s = e1val G s ∨ eInit G s = e2val G s ∨ eInit G s = e3val s := by
    rw [eInit]
    by_cases h1 : e1flag G s = true
    · rw [if_pos h1]
      exact Or.inl rfl
    · rw [Bool.not_eq_true] at h1
      rw [h1]
      simp only [Bool.false_eq_true, if_false]
      by_cases h2 : e2flag G s = true
      · rw [if_pos h2]
        exact Or.inr (Or.inl rfl)
      · rw [Bool.not_eq_true] at h2
        rw [h2]
        simp only [Bool.false_eq_true, if_false]
        by_cases h3 : e3flag s = true
        · rw [if_pos h3]
          exact Or.inr (Or.inr rfl)
        · exfalso
          rw [Bool.not_eq_true] at h3
          rcases hne with hne | hne | hne
          · exact hne (by by_contra hcc; exact (by rw [(e1flag_iff G s).mpr hcc] at h1; cases h1))
          · exact hne (by by_contra hcc; exact (by rw [(e2flag_iff G s).mpr hcc] at h2; cases h2))
          · exact hne (by by_contra hcc; exact (by rw [(e3flag_iff s).mpr hcc] at h3; cases h3))
  have hMid : eMid G s = Q.half (e2val G s) ∨ eMid G s = eInit G s := by
    rw [eMid]
    by_cases h : (GREATER (eInit G s) (Q.half (e2val G s)) && e2flag G s) = true
    · rw [if_pos h]
      exact Or.inl rfl
    · rw [if_neg h]
      exact Or.inr rfl
  rw [computeE_eq]
  by_cases h : (GREATER (eMid G s) (e3val s) && e3flag s) = true
  · rw [if_pos h]
    exact Or.inr (Or.inr (Or.inr rfl))
  · rw [if_neg h]
    rcases hMid with h' | h'
    · rw [h']
      exact Or.inr (Or.inr (Or.inl rfl))
    · rw [h']
      rcases hInit with h'' | h'' | h'' <;> rw [h'']
      · exact Or.inl rfl
      · exact Or.inr (Or.inl rfl)
      · exact Or.inr (Or.inr (Or.inr rfl))

theorem computeE_bound1 (G : Graph) (s : MState) (c : Q) (hc : c ∈ e1cands G s) :
    (computeE G s).val ≤ c.val + EPSILON.val := by
  have h1 : e1flag G s = true := (e1flag_iff G s).mpr (by intro hx; rw [hx] at hc; cases hc)
  have hInit : eInit G s = e1val G s := by rw [eInit, if_pos h1]
  have := e1val_bound G s c hc
  have h2 := computeE_le_eMid G s
  have h3 := eMid_le G s
  rw [hInit] at h3
  linarith

theorem computeE_bound2 (G : Graph) (s : MState) (c : Q) (hc : c ∈ e2cands G s) :
    (computeE G s).val ≤ c.val / 2 + 3 / 2 * EPSILON.val := by
  have h2 : e2flag G s = true := (e2flag_iff G s).mpr (by intro hx; rw [hx] at hc; cases hc)
  have hb := eMid_bound2 G s h2
  have hv := e2val_bound G s c hc
  have hh : (Q.half (e2val G s)).val = (e2val G s).val / 2 := Q.val_half _
  have h3 := computeE_le_eMid G s
  rw [hh] at hb
  linarith

theorem computeE_bound3' (G : Graph) (s : MState) (c : Q) (hc : c ∈ e3cands s) :
    (computeE G s).val ≤ c.val + 2 * EPSILON.val := by
  have h3 : e3flag s = true := (e3flag_iff s).mpr (by intro hx; rw [hx] at hc; cases hc)
  have hb := computeE_bound3 G s h3
  have hv := e3val_bound s c hc
  linarith

theorem applyDual_val (e : Q) (s : MState) (hlen : s.dual.length = 2 * s.n)
    (i : ℕ) (hi : i < 2 * s.n) :
    (dualOf (applyDual e s) i).val = (dualOf s i).val +
      (if i = outerOf s i ∧ activeOf s i = true then
        (if typeOf s i = EVEN then e.val else if typeOf s i = ODD then -e.val else 0)
      else 0) := by
  have hstep : dualOf (applyDual e s) i = dualDelta e s i (dualOf s i) := by
    show nth (Q.ofInt 0) (iterUpd (Q.ofInt 0) (dualDelta e s) s.dual (2 * s.n)) i = _
    rw [nth_iterUpd]
    rw [if_pos ⟨hi, by rw [hlen]; exact hi⟩]
    rfl
  rw [hstep, dualDelta]
  by_cases ho : i = outerOf s i
  · rw [if_pos (by rw [beq_iff_eq]; exact ho)]
    have hty : typeOf s (outerOf s i) = typeOf s i := by rw [← ho]
    by_cases ha : activeOf s i = true
    · by_cases hE : typeOf s i = EVEN
      · rw [if_pos (by rw [ha, hty, hE]; rfl)]
        rw [Q.val_add, if_pos ⟨ho, ha⟩, if_pos hE]
      · by_cases hO : typeOf s i = ODD
        · rw [if_neg (by rw [ha, hty]; simp [hO, hE, ODD, EVEN]), if_pos (by rw [ha, hty, hO]; rfl)]
          rw [Q.val_sub, if_pos ⟨ho, ha⟩, if_neg hE, if_pos hO]
          ring
        · rw [if_neg (by rw [ha, hty]; simp [hE]), if_neg (by rw [ha, hty]; simp [hO])]
          rw [if_pos ⟨ho, ha⟩, if_neg hE, if_neg hO]
          ring
    · rw [Bool.not_eq_true] at ha
      rw [if_neg (by rw [ha]; simp), if_neg (by rw [ha]; simp)]
      rw [if_neg (by intro hx; rw [hx.2] at ha; cases ha)]
      ring
  · rw [if_neg (by rw [beq_iff_eq]; exact ho)]
    rw [if_neg (by intro hx; exact ho hx.1)]
    ring

theorem applySlack_val (G : Graph) (e : Q) (s : MState) (hlen : s.slack.length = s.m)
    (j : ℕ) (hj : j < s.m) :
    (slackOf (applySlack G e s) j).val = (slackOf s j).val +
      (if outerOf s (G.GetEdge j).1 ≠ outerOf s (G.GetEdge j).2 then
        labelAdj (typeOf s (outerOf s (G.GetEdge j).1))
          (typeOf s (outerOf s (G.GetEdge j).2)) e.val
      else 0) := by
  have hstep : slackOf (applySlack G e s) j = slackDelta G e s j (slackOf s j) := by
    show nth (Q.ofInt 0) (iterUpd (Q.ofInt 0) (slackDelta G e s) s.slack s.m) j = _
    rw [nth_iterUpd]
    rw [if_pos ⟨hj, by rw [hlen]; exact hj⟩]
    rfl
  rw [hstep, slackDelta]
  set u := (G.GetEdge j).1 with hu
  set v := (G.GetEdge j).2 with hv
  set tu := typeOf s (outerOf s u) with htu
  set tv := typeOf s (outerOf s v) with htv
  by_cases hO : outerOf s u = outerOf s v
  · rw [if_neg (by simp [bne_iff_ne, hO]), if_neg (by simp [hO])]
    ring
  · rw [if_pos (by simp [bne_iff_ne, hO]), if_pos hO, labelAdj]
    simp only [EVEN, ODD, UNLABELED]
    by_cases hb1 : (tu == 2 && tv == 2) = true
    · rw [if_pos hb1]
      rw [Bool.and_eq_true_iff, beq_iff_eq, beq_iff_eq] at hb1
      rw [Q.val_sub, Q.val_double, if_pos hb1]
      ring
    · rw [if_neg hb1]
      by_cases hb2 : (tu == 1 && tv == 1) = true
      · rw [if_pos hb2]
        simp only [Bool.and_eq_true_iff, beq_iff_eq] at hb1 hb2
        rw [Q.val_add, Q.val_double, if_neg (by omega), if_pos hb2]
      · rw [if_neg hb2]
        by_cases hb3 : ((tv == 0 && tu == 2) || (tu == 0 && tv == 2)) = true
        · rw [if_pos hb3]
          simp only [Bool.or_eq_true_iff, Bool.and_eq_true_iff, beq_iff_eq] at hb3
          rw [Q.val_sub, if_neg (by omega), if_neg (by omega), if_pos hb3]
          ring
        · rw [if_neg hb3]
          by_cases hb4 : ((tv == 0 && tu == 1) || (tu == 0 && tv == 1)) = true
          · rw [if_pos hb4]
            simp only [Bool.or_eq_true_iff, Bool.and_eq_true_iff, beq_iff_eq] at hb4
            rw [Q.val_add, if_neg (by omega), if_neg (by omega), if_neg (by omega),
              if_pos hb4]
          · rw [if_neg hb4]
            simp only [Bool.or_eq_true_iff, Bool.and_eq_true_iff, beq_iff_eq] at hb1 hb2 hb3 hb4
            rw [if_neg (by omega), if_neg (by omega), if_neg (by omega), if_neg (by omega)]
            ring

/-- C3 (amended): in `UpdateDualCosts` the dual step `e` is one of
`e1`, `e2`, `e2/2`, `e3` and is within the `GREATER` tolerance of the
minimum of the initialized candidates — within `ε` of every `e1`
candidate slack, within `3ε/2` of half of every `e2` candidate slack,
and within `2ε` of every `e3` candidate dual — but (counterexample
`C3_counterexample`) need not equal the exact minimum; the update then
adds `e` to the dual of every active EVEN outer blossom, subtracts `e`
from every active ODD one, and changes each cross-blossom edge's slack
by `−2e`, `+2e`, `−e`, `+e` or `0` according to the labels of its two
outer endpoints (`labelAdj`), leaving same-blossom edges unchanged. -/
theorem C3_update_dual_costs_amended (G : Graph) (s : MState)
    (hlen_d : s.dual.length = 2 * s.n) (hlen_s : s.slack.length = s.m)
    (hne : e1cands G s ≠ [] ∨ e2cands G s ≠ [] ∨ e3cands s ≠ []) :
    (computeE G s = e1val G s ∨ computeE G s = e2val G s ∨
        computeE G s = Q.half (e2val G s) ∨ computeE G s = e3val s)
    ∧ (∀ c ∈ e1cands G s, (computeE G s).val ≤ c.val + EPSILON.val)
    ∧ (∀ c ∈ e2cands G s, (computeE G s).val ≤ c.val / 2 + 3 / 2 * EPSILON.val)
    ∧ (∀ c ∈ e3cands s, (computeE G s).val ≤ c.val + 2 * EPSILON.val)
    ∧ (∀ fuel, UpdateDualCosts G fuel s =
        blockedSweep G fuel (applySlack G (computeE G s) (applyDual (computeE G s) s)))
    ∧ (∀ i < 2 * s.n, (dualOf (applyDual (computeE G s) s) i).val = (dualOf s i).val +
        (if i = outerOf s i ∧ activeOf s i = true then
          (if typeOf s i = EVEN then (computeE G s).val
           else if typeOf s i = ODD then -(computeE G s).val else 0)
        else 0))
    ∧ (∀ j < s.m,
        (slackOf (applySlack G (computeE G s) (applyDual (computeE G s) s)) j).val =
          (slackOf s j).val +
          (if outerOf s (G.GetEdge j).1 ≠ outerOf s (G.GetEdge j).2 then
            labelAdj (typeOf s (outerOf s (G.GetEdge j).1))
              (typeOf s (outerOf s (G.GetEdge j).2)) (computeE G s).val
          else 0)) := by
  refine ⟨computeE_mem G s hne,
    fun c hc => computeE_bound1 G s c hc,
    fun c hc => computeE_bound2 G s c hc,
    fun c hc => computeE_bound3' G s c hc,
    fun fuel => rfl,
    fun i hi => applyDual_val (computeE G s) s hlen_d i hi,
    fun j hj => applySlack_val G (computeE G s) (applyDual (computeE G s) s) hlen_s j hj⟩

/-- C3 (counterexample): on `cexS3` the code's dual step is `e = 1`,
while the exact minimum of the initialized candidates is `1 − ε/2`: the
step `e` of `UpdateDualCosts` is not the minimum of the candidates. -/
theorem C3_counterexample :
    (claimDualStep cexG3 cexS3).map (fun d => Q.qeq (computeE cexG3 cexS3) d) = some false
    ∧ Q.qeq (computeE cexG3 cexS3) (Q.ofInt 1) = true := by
  exact ⟨by rfl, by rfl⟩

/-- C3 (witness): the amended theorem applied to the concrete state
`cexS3` of the counterexample graph. -/
theorem C3_witness :
    computeE cexG3 cexS3 = e1val cexG3 cexS3 ∨ computeE cexG3 cexS3 = e2val cexG3 cexS3 ∨
      computeE cexG3 cexS3 = Q.half (e2val cexG3 cexS3) ∨ computeE cexG3 cexS3 = e3val cexS3 :=
  (C3_update_dual_costs_amended cexG3 cexS3 (by rfl) (by rfl)
    (Or.inl (by decide))).1

theorem findMinEdgeInner_spec (G : Graph) (s : MState) (di : ℕ) :
    ∀ (dv : List ℕ) (acc : ℤ × ℤ × ℕ),
      (findMinEdgeInner G s di dv acc = acc ∨
        ∃ q ∈ dv, IsAdjacent G s di q = true ∧
          findMinEdgeInner G s di dv acc = ((di : ℤ), (q : ℤ), G.GetEdgeIndex di q))
      ∧ (findMinEdgeInner G s di dv acc).2.2 ≤ acc.2.2
      ∧ (∀ q ∈ dv, IsAdjacent G s di q = true →
          (findMinEdgeInner G s di dv acc).2.2 ≤ G.GetEdgeIndex di q) := by
  intro dv
  induction dv with
  | nil =>
    intro acc
    exact ⟨Or.inl rfl, le_refl _, by intro q hq; cases hq⟩
  | cons q0 rest ih =>
    intro acc
    by_cases hA : (IsAdjacent G s di q0 && decide (G.GetEdgeIndex di q0 < acc.2.2)) = true
    · have hAdj := (Bool.and_eq_true_iff.mp hA).1
      have hLt : G.GetEdgeIndex di q0 < acc.2.2 :=
        of_decide_eq_true (Bool.and_eq_true_iff.mp hA).2
      have hstep : findMinEdgeInner G s di (q0 :: rest) acc
          = findMinEdgeInner G s di rest ((di : ℤ), (q0 : ℤ), G.GetEdgeIndex di q0) := by
        rw [findMinEdgeInner, if_pos hA]
      have ihr := ih ((di : ℤ), (q0 : ℤ), G.GetEdgeIndex di q0)
      refine ⟨?_, ?_, ?_⟩
      · rcases ihr.1 with h | ⟨q, hq, hadj, h⟩
        · exact Or.inr ⟨q0, List.mem_cons_self _ _, hAdj, by rw [hstep, h]⟩
        · exact Or.inr ⟨q, List.mem_cons_of_mem _ hq, hadj, by rw [hstep, h]⟩
      · rw [hstep]
        exact le_trans ihr.2.1 (le_of_lt hLt)
      · intro q hq hadj
        rcases List.mem_cons.mp hq with rfl | hq
        · rw [hstep]
          exact ihr.2.1
        · rw [hstep]
          exact ihr.2.2 q hq hadj
    · have hstep : findMinEdgeInner G s di (q0 :: rest) acc
          = findMinEdgeInner G s di rest acc := by
        rw [findMinEdgeInner, if_neg hA]
      have ihr := ih acc
      refine ⟨?_, ?_, ?_⟩
      · rcases ihr.1 with h | ⟨q, hq, hadj, h⟩
        · exact Or.inl (by rw [hstep, h])
        · exact Or.inr ⟨q, List.mem_cons_of_mem _ hq, hadj, by rw [hstep, h]⟩
      · rw [hstep]
        exact ihr.2.1
      · intro q hq hadj
        rcases List.mem_cons.mp hq with rfl | hq
        · have hnLt : ¬ (G.GetEdgeIndex di q < acc.2.2) := by
            intro hlt
            exact hA (by rw [hadj, decide_eq_true hlt]; rfl)
          rw [hstep]
          exact le_trans ihr.2.1 (not_lt.mp hnLt)
        · rw [hstep]
          exact ihr.2.2 q hq hadj

theorem findMinEdge_spec (G : Graph) (s : MState) (dv : List ℕ) :
    ∀ (du : List ℕ) (acc : ℤ × ℤ × ℕ),
      (findMinEdge G s du dv acc = acc ∨
        ∃ p ∈ du, ∃ q ∈ dv, IsAdjacent G s p q = true ∧
          findMinEdge G s du dv acc = ((p : ℤ), (q : ℤ), G.GetEdgeIndex p q))
      ∧ (findMinEdge G s du dv acc).2.2 ≤ acc.2.2
      ∧ (∀ p ∈ du, ∀ q ∈ dv, IsAdjacent G s p q = true →
          (findMinEdge G s du dv acc).2.2 ≤ G.GetEdgeIndex p q) := by
  intro du
  induction du with
  | nil =>
    intro acc
    exact ⟨Or.inl rfl, le_refl _, by intro p hp; cases hp⟩
  | cons p0 rest ih =>
    intro acc
    have hstep : findMinEdge G s (p0 :: rest) dv acc
        = findMinEdge G s rest dv (findMinEdgeInner G s p0 dv acc) := rfl
    have hin := findMinEdgeInner_spec G s p0 dv acc
    have ihr := ih (findMinEdgeInner G s p0 dv acc)
    refine ⟨?_, ?_, ?_⟩
    · rcases ihr.1 with h | ⟨p, hp, q, hq, hadj, h⟩
      · rcases hin.1 with h' | ⟨q, hq, hadj, h'⟩
        · exact Or.inl (by rw [hstep, h, h'])
        · exact Or.inr ⟨p0, List.mem_cons_self _ _, q, hq, hadj, by rw [hstep, h, h']⟩
      · exact Or.inr ⟨p, List.mem_cons_of_mem _ hp, q, hq, hadj, by rw [hstep, h]⟩
    · rw [hstep]
      exact le_trans ihr.2.1 hin.2.1
    · intro p hp q hq hadj
      rcases List.mem_cons.mp hp with rfl | hp
      · rw [hstep]
        exact le_trans ihr.2.1 (hin.2.2 q hq hadj)
      · rw [hstep]
        exact ihr.2.2 p hp q hq hadj

theorem findMinEdge_found (G : Graph) (s : MState) (du dv : List ℕ)
    (hfound : (findMinEdge G s du dv (-1, -1, s.m)).2.2 < s.m) :
    ∃ p ∈ du, ∃ q ∈ dv, IsAdjacent G s p q = true ∧
      findMinEdge G s du dv (-1, -1, s.m) = ((p : ℤ), (q : ℤ), G.GetEdgeIndex p q) := by
  rcases (findMinEdge_spec G s dv du (-1, -1, s.m)).1 with h | h
  · rw [h] at hfound
    exact absurd hfound (lt_irrefl _)
  · exact h

/-- C4 (amended): for every call `Expand(u)` with `v = outer[mate[u]]`,
the pair `(p, q)` chosen by the search loop of `Expand` to re-mate `u`
and `v` is an edge with `p ∈ deep[u]`, `q ∈ deep[v]` that is adjacent in
`G` **and not blocked** (`IsAdjacent` includes the slack test), of
minimum edge index among all such unblocked adjacent pairs — not among
all adjacent pairs of `G` as the claim states (see
`C4_counterexample`). -/
theorem C4_expand_min_edge_amended (G : Graph) (s : MState) (u : ℕ)
    (r : ℤ × ℤ × ℕ)
    (hr : findMinEdge G s (deepOf s u)
        (deepOf s (outerOf s (mateOf s u).toNat)) (-1, -1, s.m) = r)
    (hfound : r.2.2 < s.m) :
    r.1.toNat ∈ deepOf s u
    ∧ r.2.1.toNat ∈ deepOf s (outerOf s (mateOf s u).toNat)
    ∧ IsAdjacent G s r.1.toNat r.2.1.toNat = true
    ∧ r.2.2 = G.GetEdgeIndex r.1.toNat r.2.1.toNat
    ∧ (∀ p ∈ deepOf s u, ∀ q ∈ deepOf s (outerOf s (mateOf s u).toNat),
        IsAdjacent G s p q = true → r.2.2 ≤ G.GetEdgeIndex p q) := by
  obtain ⟨p, hp, q, hq, hadj, heq⟩ :=
    findMinEdge_found G s (deepOf s u) (deepOf s (outerOf s (mateOf s u).toNat))
      (by rw [hr]; exact hfound)
  rw [hr] at heq
  subst heq
  refine ⟨?_, ?_, ?_, ?_, ?_⟩
  · simpa [Int.toNat_natCast] using hp
  · simpa [Int.toNat_natCast] using hq
  · simpa [Int.toNat_natCast] using hadj
  · simp [Int.toNat_natCast]
  · intro p' hp' q' hq' hadj'
    have := (findMinEdge_spec G s (deepOf s (outerOf s (mateOf s u).toNat))
      (deepOf s u) (-1, -1, s.m)).2.2 p' hp' q' hq' hadj'
    rw [hr] at this
    exact this

/-- C4 (counterexample): in `cexS4`, `Expand(0)` chooses the tight edge
`(0, 2)` of index `1`, not the blocked adjacent edge `(0, 1)` of
minimum index `0`: the choice is not the minimum over all adjacent
pairs of `G`. -/
theorem C4_counterexample :
    (findMinEdge cexG4 cexS4 (deepOf cexS4 0)
        (deepOf cexS4 (outerOf cexS4 (mateOf cexS4 0).toNat)) (-1, -1, cexS4.m)).2.2 = 1
    ∧ claimMinCrossIdx cexG4 (deepOf cexS4 0)
        (deepOf cexS4 (outerOf cexS4 (mateOf cexS4 0).toNat)) = 0
    ∧ (1 : ℕ) ≠ 0
    ∧ (Expand cexG4 5 false 0 cexS4).map (fun s' => mateOf s' 0) = some 2 := by
  exact ⟨by rfl, by rfl, by decide, by rfl⟩

/-- C4 (witness): the amended theorem applied to the concrete state of
the counterexample: the chosen pair is `(0, 2)`, an unblocked adjacent
pair of minimum index among the unblocked ones. -/
theorem C4_witness :
    ((0 : ℤ), (2 : ℤ), 1).1.toNat ∈ deepOf cexS4 0
    ∧ ((0 : ℤ), (2 : ℤ), 1).2.1.toNat ∈
        deepOf cexS4 (outerOf cexS4 (mateOf cexS4 0).toNat)
    ∧ IsAdjacent cexG4 cexS4 ((0 : ℤ), (2 : ℤ), 1).1.toNat ((0 : ℤ), (2 : ℤ), 1).2.1.toNat
        = true :=
  have h := C4_expand_min_edge_amended cexG4 cexS4 0 ((0 : ℤ), (2 : ℤ), 1) (by rfl)
    (by decide)
  ⟨h.1, h.2.1, h.2.2.1⟩

/-- C5 (amended): mate symmetry does not hold literally at stable
points.  On the early-return path of `Expand` (an original vertex, or a
blocked blossom without `expandBlocked`), the two mate writes redirect
`mate[u]` to a deep vertex `q` of the partner blossom `v` and `mate[v]`
to a deep vertex `p` of `u`; so for a matched blocked blossom `b`,
`mate[mate[b]]` need not be `b` (see `C5_counterexample`), and symmetry
holds only at the outer level through `deep`. -/
theorem C5_expand_deep_mates_amended (G : Graph) (s : MState) (u : ℕ) (eb : Bool)
    (fuel : ℕ)
    (hstop : u < s.n ∨ (blockedOf s u = true ∧ eb = false))
    (r : ℤ × ℤ × ℕ)
    (hr : findMinEdge G s (deepOf s u)
        (deepOf s (outerOf s (mateOf s u).toNat)) (-1, -1, s.m) = r)
    (hfound : r.2.2 < s.m) :
    Expand G (fuel + 1) eb u s =
      some { s with mate := upd (upd s.mate u r.2.1)
                              (outerOf s (mateOf s u).toNat) r.1 }
    ∧ r.2.1.toNat ∈ deepOf s (outerOf s (mateOf s u).toNat)
    ∧ r.1.toNat ∈ deepOf s u := by
  have hcond : (decide (u < s.n) || (blockedOf s u && !eb)) = true := by
    rcases hstop with h | ⟨hb, he⟩
    · rw [decide_eq_true h]
      rfl
    · rw [hb, he]
      simp
  obtain ⟨p, hp, q, hq, hadj, heq⟩ :=
    findMinEdge_found G s (deepOf s u) (deepOf s (outerOf s (mateOf s u).toNat))
      (by rw [hr]; exact hfound)
  refine ⟨?_, ?_, ?_⟩
  · simp only [Expand]
    rw [hr]
    split_ifs with h
    · rfl
    · exact absurd hcond h
  · rw [hr] at heq
    subst heq
    simpa [Int.toNat_natCast] using hq
  · rw [hr] at heq
    subst heq
    simpa [Int.toNat_natCast] using hp

set_option maxRecDepth 400000 in
/-- C5 (counterexample): at the stable point reached by `cexRun5` the
blossom `11` is an active outer pseudo-vertex with `mate[11] = 5`, yet
`mate[5] = 0 ≠ 11`: `mate[u] = v` does not imply `mate[v] = u` at every
stable point.  The same run completes and returns the expected optimal
matching, so the state is on the path of a successful solve. -/
theorem C5_counterexample :
    cexRun5.map (fun s => (activeOf s 11, outerOf s 11, mateOf s 11,
        mateOf s (mateOf s 11).toNat)) = some (true, 11, 5, 0)
    ∧ (0 : ℤ) ≠ (11 : ℤ)
    ∧ SolveMinimumCostPerfectMatching cexG5 80 cexCost5 =
        some (Except.ok ([1, 3, 5], Q.ofInt 12)) := by
  refine ⟨by rfl, by decide, by rfl⟩

/-- C5 (witness): the amended theorem applied concretely: expanding the
original vertex `0` rewrites `mate[0]` to the deep vertex `1` of the
partner blossom `4` and `mate[4]` to `0`. -/
theorem C5_witness :
    Expand cexG5w 6 false 0 cexS5w =
      some { cexS5w with mate := upd (upd cexS5w.mate 0 1)
                              (outerOf cexS5w (mateOf cexS5w 0).toNat) 0 }
    ∧ ((0 : ℤ), (1 : ℤ), (0 : ℕ)).2.1.toNat ∈
        deepOf cexS5w (outerOf cexS5w (mateOf cexS5w 0).toNat)
    ∧ ((0 : ℤ), (1 : ℤ), (0 : ℕ)).1.toNat ∈ deepOf cexS5w 0 :=
  C5_expand_deep_mates_amended cexG5w cexS5w 0 false 5 (Or.inl (by decide))
    ((0 : ℤ), (1 : ℤ), (0 : ℕ)) (by rfl) (by decide)

theorem nth_oob (d : α) (l : List α) (i : ℕ) (h : l.length ≤ i) : nth d l i = d := by
  induction l generalizing i with
  | nil => rfl
  | cons x t ih =>
    cases i with
    | zero => simp at h
    | succ j => exact ih j (by simpa using h)

theorem GREATER_sub_zero (a b : Q) : GREATER (Q.sub a b) (Q.ofInt 0) = GREATER a b := by
  apply bool_eq_of_iff
  rw [GREATER_iff, GREATER_iff, Q.val_sub, Q.val_ofInt]
  push_cast
  constructor <;> intro h <;> linarith

theorem minSlackFold_eq (s : MState) :
    minSlackFold s = ((List.range s.m).map (slackOf s)).foldl minStep (Q.ofInt 0) := by
  rw [minSlackFold, List.foldl_map]
  apply List.foldl_ext
  intro a i _
  rw [GREATER_sub_zero]
  rfl

theorem minSlackFold_le_zero (s : MState) : (minSlackFold s).val ≤ 0 := by
  rw [minSlackFold_eq]
  have := minFold_le_init ((List.range s.m).map (slackOf s)) (Q.ofInt 0)
  rw [Q.val_ofInt] at this
  simpa using this

theorem minSlackFold_bound (s : MState) (e : ℕ) (he : e < s.m) :
    (minSlackFold s).val ≤ (slackOf s e).val + EPSILON.val := by
  rw [minSlackFold_eq]
  exact (minFold_strong _ (Q.ofInt 0)).2.2 (slackOf s e)
    (List.mem_map_of_mem _ (List.mem_range.mpr he))

theorem minFold_stay (l : List Q)
    (h : ∀ c ∈ l, -(EPSILON.val) ≤ c.val) :
    l.foldl minStep (Q.ofInt 0) = Q.ofInt 0 := by
  induction l with
  | nil => rfl
  | cons x r ih =>
    rw [List.foldl_cons]
    have hx : GREATER (Q.ofInt 0) x = false := by
      rw [← Bool.not_eq_true, GREATER_iff, Q.val_ofInt]
      push_cast
      intro hc
      have := h x (List.mem_cons_self x r)
      linarith
    rw [show minStep (Q.ofInt 0) x = Q.ofInt 0 from by rw [minStep, hx]; rfl]
    exact ih (fun c hc => h c (List.mem_cons_of_mem _ hc))

theorem minSlackFold_stay (s : MState)
    (h : ∀ e, e < s.m → -(EPSILON.val) ≤ (slackOf s e).val) :
    minSlackFold s = Q.ofInt 0 := by
  rw [minSlackFold_eq]
  apply minFold_stay
  intro c hc
  obtain ⟨i, hi, rfl⟩ := List.mem_map.mp hc
  exact h i (List.mem_range.mp hi)

theorem PositiveCosts_slack (s : MState) (hlen : s.slack.length = s.m)
    (e : ℕ) (he : e < s.m) :
    slackOf (PositiveCosts s) e = Q.sub (slackOf s e) (minSlackFold s) := by
  show nth (Q.ofInt 0)
    (iterUpd (Q.ofInt 0) (fun _ sl => Q.sub sl (minSlackFold s)) s.slack s.m) e = _
  rw [nth_iterUpd, if_pos ⟨he, by rw [hlen]; exact he⟩]
  rfl

/-- C7 (amended): `InitCostState` (`Clear()` followed by `slack = cost`
and `PositiveCosts()`, exactly the code run by
`SolveMinimumCostPerfectMatching` between the perfect-matching check and
the primal-dual loop) clears every mate, zeroes every dual, deactivates
every pseudo-vertex, refills `free` with `n .. 2n−1`, and sets
`slack[e] = cost[e] − d` where `d = minSlackFold ≤ 0` is the code's
tolerant minimum of `0` and the costs — so `slack = cost` holds exactly
only when no cost is below `−ε` (see `C7_counterexample`). -/
theorem C7_init_state_amended (G : Graph) (cost : List Q)
    (hlen : cost.length = G.edges.length) :
    (∀ i, mateOf (InitCostState G cost) i = -1)
    ∧ (∀ i, dualOf (InitCostState G cost) i = Q.ofInt 0)
    ∧ (∀ b, G.n ≤ b → activeOf (InitCostState G cost) b = false)
    ∧ (InitCostState G cost).free.length = G.n
    ∧ (∀ k, k < G.n → nth 0 (InitCostState G cost).free k = G.n + k)
    ∧ (∀ e, e < (InitCostState G cost).m →
        (slackOf (InitCostState G cost) e).val =
          (nth (Q.ofInt 0) cost e).val - (minSlackFold { Clear G with slack := cost }).val)
    ∧ (minSlackFold { Clear G with slack := cost }).val ≤ 0
    ∧ ((∀ e, e < (InitCostState G cost).m →
          -(EPSILON.val) ≤ (nth (Q.ofInt 0) cost e).val) →
        ∀ e, e < (InitCostState G cost).m →
          (slackOf (InitCostState G cost) e).val = (nth (Q.ofInt 0) cost e).val) := by
  have hm : (InitCostState G cost).m = G.edges.length := rfl
  have hslack : ∀ e, e < (InitCostState G cost).m →
      slackOf (InitCostState G cost) e =
        Q.sub (nth (Q.ofInt 0) cost e) (minSlackFold { Clear G with slack := cost }) := by
    intro e he
    exact PositiveCosts_slack { Clear G with slack := cost }
      (by rw [hlen]; rfl) e he
  refine ⟨?_, ?_, ?_, ?_, ?_, ?_, minSlackFold_le_zero _, ?_⟩
  · intro i
    show nth (-1) (List.replicate (2 * G.n) (-1)) i = -1
    rw [nth_replicate]
    exact ite_self _
  · intro i
    show nth (Q.ofInt 0) (List.replicate (2 * G.n) (Q.ofInt 0)) i = Q.ofInt 0
    rw [nth_replicate]
    exact ite_self _
  · intro b hb
    show nth false ((List.range (2 * G.n)).map (fun i => decide (i < G.n))) b = false
    by_cases h2 : b < 2 * G.n
    · rw [nth_map false 0 _ _ b (by simpa using h2), nth_range 0 _ b h2]
      simpa using hb
    · rw [nth_oob]
      simpa using not_lt.mp h2
  · show ((List.range G.n).map (fun i => G.n + i)).length = G.n
    simp
  · intro k hk
    show nth 0 ((List.range G.n).map (fun i => G.n + i)) k = G.n + k
    rw [nth_map 0 0 _ _ k (by simpa using hk), nth_range 0 _ k hk]
  · intro e he
    rw [hslack e he, Q.val_sub]
  · intro hpos e he
    have hstay : minSlackFold { Clear G with slack := cost } = Q.ofInt 0 := by
      apply minSlackFold_stay
      intro j hj
      have hj' : j < (InitCostState G cost).m := by
        rw [hm]
        rw [show ({ Clear G with slack := cost } : MState).m = G.edges.length from rfl] at hj
        exact hj
      exact hpos j hj'
    rw [hslack e he, Q.val_sub, hstay, Q.val_ofInt]
    push_cast
    ring

/-- C7 (counterexample): with a negative cost, the slack initialized by
`SolveMinimumCostPerfectMatching` is not the input cost: the whole
vector is shifted by `PositiveCosts` (slack `0` and `2` instead of `−1`
and `1`). -/
theorem C7_counterexample :
    Q.qeq (slackOf (InitCostState cexG7 cexCost7) 0) (Q.ofInt (-1)) = false
    ∧ Q.qeq (slackOf (InitCostState cexG7 cexCost7) 0) (Q.ofInt 0) = true
    ∧ Q.qeq (slackOf (InitCostState cexG7 cexCost7) 1) (Q.ofInt 2) = true := by
  exact ⟨by rfl, by rfl, by rfl⟩

/-- C7 (witness): the amended theorem applied to the counterexample
instance. -/
theorem C7_witness :
    (minSlackFold { Clear cexG7 with slack := cexCost7 }).val ≤ 0
    ∧ mateOf (InitCostState cexG7 cexCost7) 0 = -1 :=
  have h := C7_init_state_amended cexG7 cexCost7 (by rfl)
  ⟨h.2.2.2.2.2.2.1, h.1 0⟩

theorem foldl_add_val (cost : List Q) (l : List ℕ) : ∀ (z : Q),
    (l.foldl (fun acc i => Q.add acc (nth (Q.ofInt 0) cost i)) z).val
      = z.val + (l.map (fun i => (nth (Q.ofInt 0) cost i).val)).sum := by
  induction l with
  | nil => intro z; simp
  | cons x r ih =>
    intro z
    rw [List.foldl_cons, ih, Q.val_add, List.map_cons, List.sum_cons]
    ring

theorem solve_obj_from_costs (G : Graph) (fuel : ℕ) (cost : List Q)
    (l : List ℕ) (o : Q)
    (h : SolveMinimumCostPerfectMatching G fuel cost = some (Except.ok (l, o))) :
    o.val = (l.map (fun i => (nth (Q.ofInt 0) cost i).val)).sum := by
  rw [SolveMinimumCostPerfectMatching] at h
  cases hms : SolveMaximumMatching G fuel with
  | none => rw [hms] at h; cases h
  | some ms =>
    rw [hms] at h
    dsimp only [Option.bind] at h
    by_cases hp : (!ms.2.perfect) = true
    · rw [if_pos hp] at h
      simp at h
    · rw [if_neg hp] at h
      cases hsl : solveLoop G fuel fuel { InitCostState G cost with perfect := false } with
      | none => rw [hsl] at h; cases h
      | some s1 =>
        rw [hsl] at h
        dsimp only [Option.bind] at h
        cases hr : RetrieveMatching G fuel s1 with
        | none => rw [hr] at h; cases h
        | some r =>
          rw [hr] at h
          dsimp only [Option.bind] at h
          rw [Option.some_inj] at h
          obtain ⟨h1, h2⟩ := Prod.mk.injEq .. ▸ (Except.ok.injEq .. ▸ h)
          rw [← h2, ← h1, foldl_add_val, Q.val_ofInt]
          push_cast
          ring

/-- C10 (amended): `PositiveCosts` sets `slack[e] = slack[e] − d` where
`d = minSlackFold s` is the tolerant minimum of `0` and the slacks
(`d ≤ 0`, and `d` can differ from the exact `min(0, min cost)` by up to
`ε`, see `C10_counterexample`); afterwards every slack is at least
`−ε` (not necessarily non-negative); and the objective returned by
`SolveMinimumCostPerfectMatching` is computed from the original,
unshifted cost vector. -/
theorem C10_positive_costs_amended (s : MState) (hlen : s.slack.length = s.m) :
    (∀ e, e < s.m → (slackOf (PositiveCosts s) e).val
        = (slackOf s e).val - (minSlackFold s).val)
    ∧ (minSlackFold s).val ≤ 0
    ∧ (∀ e, e < s.m → -(EPSILON.val) ≤ (slackOf (PositiveCosts s) e).val)
    ∧ (∀ (G : Graph) (fuel : ℕ) (cost : List Q) (l : List ℕ) (o : Q),
        SolveMinimumCostPerfectMatching G fuel cost = some (Except.ok (l, o)) →
        o.val = (l.map (fun i => (nth (Q.ofInt 0) cost i).val)).sum) := by
  refine ⟨?_, minSlackFold_le_zero s, ?_, solve_obj_from_costs⟩
  · intro e he
    rw [PositiveCosts_slack s hlen e he, Q.val_sub]
  · intro e he
    rw [PositiveCosts_slack s hlen e he, Q.val_sub]
    have := minSlackFold_bound s e he
    linarith

/-- C10 (counterexample): with costs `−5` and `−5 − ε/2`, the shift
computed by `PositiveCosts` is `−5`, not the exact
`min(0, min cost) = −5 − ε/2` claimed, and the resulting slack of edge
`1` is `−ε/2 < 0`: not every slack is non-negative after
initialization. -/
theorem C10_counterexample :
    Q.blt (slackOf (PositiveCosts cexS10) 1) (Q.ofInt 0) = true
    ∧ Q.qeq (minSlackFold cexS10) (Q.ofInt (-5)) = true
    ∧ (exactMinQ (Q.ofInt 0 :: cexCost10)).map
        (fun d => Q.qeq (minSlackFold cexS10) d) = some false := by
  exact ⟨by rfl, by rfl, by rfl⟩

/-- C10 (witness): the amended theorem applied to the counterexample
state. -/
theorem C10_witness :
    (minSlackFold cexS10).val ≤ 0
    ∧ (slackOf (PositiveCosts cexS10) 0).val
        = (slackOf cexS10 0).val - (minSlackFold cexS10).val :=
  have h := C10_positive_costs_amended cexS10 (by rfl)
  ⟨h.2.1, h.1 0 (by decide)⟩

/-- C2: `SolveMinimumCostPerfectMatching` fails exactly once and up
front: it returns the error `NoPerfectMatching` precisely when the
preliminary `SolveMaximumMatching` pass (whose own result type carries
no error at all: it never fails) ends with `perfect = false`; every
error it can return is `NoPerfectMatching`, and on failure no result
pair is produced. -/
theorem C2_no_perfect_matching_error (fuel : ℕ) (G : Graph) (cost : List Q)
    (r : Except MatchError (List ℕ × Q))
    (h : SolveMinimumCostPerfectMatching G fuel cost = some r) :
    ((∃ l s, SolveMaximumMatching G fuel = some (l, s) ∧ s.perfect = false) ↔
      r = Except.error MatchError.noPerfectMatching)
    ∧ (∀ e, r = Except.error e → e = MatchError.noPerfectMatching) := by
  rw [SolveMinimumCostPerfectMatching] at h
  cases hms : SolveMaximumMatching G fuel with
  | none => rw [hms] at h; cases h
  | some ms =>
    rw [hms] at h
    dsimp only [Option.bind] at h
    by_cases hp : (!ms.2.perfect) = true
    · rw [if_pos hp] at h
      rw [Option.some_inj] at h
      subst h
      refine ⟨⟨fun _ => rfl, fun _ => ⟨ms.1, ms.2, rfl, by simpa using hp⟩⟩, ?_⟩
      intro e _
      cases e
      rfl
    · rw [if_neg hp] at h
      have hok : ∃ pr, r = Except.ok pr := by
        cases hsl : solveLoop G fuel fuel { InitCostState G cost with perfect := false } with
        | none => rw [hsl] at h; cases h
        | some s1 =>
          rw [hsl] at h
          dsimp only [Option.bind] at h
          cases hr : RetrieveMatching G fuel s1 with
          | none => rw [hr] at h; cases h
          | some rr =>
            rw [hr] at h
            dsimp only [Option.bind] at h
            rw [Option.some_inj] at h
            exact ⟨_, h.symm⟩
      obtain ⟨pr, hpr⟩ := hok
      subst hpr
      constructor
      · constructor
        · rintro ⟨l', s', hls, hperf⟩
          exfalso
          rw [Option.some_inj] at hls
          have h2 : ms.2.perfect = false := by rw [hls]; exact hperf
          exact hp (by simp [h2])
        · intro hcontra
          cases hcontra
      · intro e he
        cases he

/-- C2 (witness): the theorem applied to the concrete path graph, whose
solve call returns the `NoPerfectMatching` error. -/
theorem C2_witness :
    ((∃ l s, SolveMaximumMatching cexG2 30 = some (l, s) ∧ s.perfect = false) ↔
      (Except.error MatchError.noPerfectMatching :
        Except MatchError (List ℕ × Q)) = Except.error MatchError.noPerfectMatching)
    ∧ (∀ e, (Except.error MatchError.noPerfectMatching :
        Except MatchError (List ℕ × Q)) = Except.error e →
        e = MatchError.noPerfectMatching) :=
  C2_no_perfect_matching_error 30 cexG2 cexCost2
    (Except.error MatchError.noPerfectMatching) (by rfl)

/-- C8 (amended): the engine has no NumericalFailure outcome: the only
error `SolveMinimumCostPerfectMatching` can produce is the up-front
`NoPerfectMatching`, and its primal-dual loop (`solveLoop`) carries no
iteration counter. -/
theorem C8_no_numerical_failure_amended (fuel : ℕ) (G : Graph) (cost : List Q)
    (e : MatchError)
    (h : SolveMinimumCostPerfectMatching G fuel cost = some (Except.error e)) :
    e = MatchError.noPerfectMatching := by
  cases e
  rfl

/-- C8 (counterexample): the error type of the engine is a singleton —
there is no second error value that a NumericalFailure cap could
return — anchored by the concrete K3 run producing the lone error. -/
theorem C8_counterexample :
    (¬ ∃ e1 e2 : MatchError, e1 ≠ e2)
    ∧ SolveMinimumCostPerfectMatching cexG8 30 cexCost8 =
        some (Except.error MatchError.noPerfectMatching) := by
  constructor
  · rintro ⟨e1, e2, hne⟩
    cases e1
    cases e2
    exact hne rfl
  · rfl

/-- C8 (witness): the amended theorem applied to the concrete K3 run. -/
theorem C8_witness : MatchError.noPerfectMatching = MatchError.noPerfectMatching :=
  C8_no_numerical_failure_amended 30 cexG8 cexCost8 MatchError.noPerfectMatching (by rfl)
